import Mathlib

/-! # Verification of the draftjs-to-markdown converter core

Shallow embedding of `src/js/index.js`: each JavaScript function of the
converter is translated into an executable Lean definition.  JavaScript
values that may be `undefined` are modelled with `Option`; a thrown
`TypeError` is modelled with `Except.error`; JavaScript object key
iteration (insertion order) is modelled by iterating structure fields in
the fixed order in which the source inserts them.
-/

namespace DraftJsToMarkdown

/-- A JavaScript value stored in a style slot: either a string (for the
property styles, e.g. the text after the prefix of a `color-...` tag) or
the literal boolean `true` (for toggle styles). -/
inductive JsVal where
  | str (s : String)
  | boolTrue
deriving DecidableEq

/-- A JavaScript string-or-undefined value (`undefined` is `none`). -/
abbrev JsStr := Option String

/-- Template-literal interpolation: `undefined` prints as "undefined". -/
def jsS : JsStr → String
  | none => "undefined"
  | some s => s

/-- `Array.prototype.join` conversion: `undefined` becomes the empty string. -/
def joinVal : JsStr → String
  | none => ""
  | some s => s

/-- JavaScript truthiness of a style-slot value (`undefined` and the empty
string are falsy). -/
def jsTruthy : Option JsVal → Bool
  | none => false
  | some (.str s) => decide (s ≠ "")
  | some .boolTrue => true

/-- Interpolation of a style-slot value into a template literal. -/
def jsValS : Option JsVal → String
  | none => "undefined"
  | some (.str s) => s
  | some .boolTrue => "true"

/-- `data` field of an entity (`url` / `src` may be absent). -/
structure EntityData where
  url : JsStr
  src : JsStr
deriving DecidableEq

/-- An entity of the entity map. -/
structure Entity where
  type : String
  data : EntityData
deriving DecidableEq

/-- The entity map, keyed by numeric entity key. -/
abbrev EntityMap := List (Nat × Entity)

/-- Property lookup `entityMap[entityKey]` (`none` = `undefined`). -/
def lookupEntity (entityMap : EntityMap) (k : Nat) : Option Entity :=
  (entityMap.find? (fun p => p.1 = k)).map (fun p => p.2)

/-- An entity range of a block (`{offset, length, key}`). -/
structure EntityRange where
  offset : Nat
  length : Nat
  key : Nat
deriving DecidableEq

/-- An inline style range of a block (`{style, offset, length}`). -/
structure InlineStyleRange where
  style : String
  offset : Nat
  length : Nat
deriving DecidableEq

/-- A raw-content block.  `data` is the optional block-level style mapping
(a JS object, modelled as an insertion-ordered association list). -/
structure Block where
  type : String
  text : String
  inlineStyleRanges : List InlineStyleRange
  entityRanges : List EntityRange
  data : Option (List (String × String))

/-- Character access `text[i]` on a JS string (`none` = `undefined`). -/
def charAtJs (s : String) (i : Nat) : Option Char :=
  s.data.get? i

/-- `String.prototype.startsWith`, modelled on the character list (the
built-in `String.startsWith` is irreducible for the kernel). -/
def jsStartsWith (s pre : String) : Bool :=
  pre.data.isPrefixOf s.data

/-- `String.prototype.substring(n)`: the characters from index `n` on. -/
def jsSubstringFrom (s : String) (n : Nat) : String :=
  ⟨s.data.drop n⟩

/-- `blockTypesMapping` lookup (mapping block-type to markdown symbol). -/
def blockTypesMapping : String → Option String
  | "unstyled" => some ""
  | "header-one" => some "# "
  | "header-two" => some "## "
  | "header-three" => some "### "
  | "header-four" => some "#### "
  | "header-five" => some "##### "
  | "header-six" => some "###### "
  | "unordered-list-item" => some "- "
  | "ordered-list-item" => some "1. "
  | "blockquote" => some "> "
  | _ => none

/-- `getBlockTagSymbol`: `block.type && blockTypesMapping[block.type]`.
A falsy (empty) type short-circuits to itself; otherwise the mapping value
(possibly `undefined`). -/
def getBlockTagSymbol (block : Block) : JsStr :=
  if block.type = "" then some "" else blockTypesMapping block.type

/-- Modelled from the spec: `isEmptyString` is imported from the missing
`./common` module; per the spec an atomic block has "an empty text field". -/
def isEmptyString (s : String) : Bool :=
  s = ""

/-- `isAtomicBlock`: at least one entity range and empty text. -/
def isAtomicBlock (block : Block) : Bool :=
  decide (block.entityRanges.length > 0) && isEmptyString block.text

/-- An entity section (JS object `{start, end, entityKey?}`).  The JS field
`end` is a Lean keyword and is called `endPos` here. -/
structure EntitySection where
  start : Nat
  endPos : Nat
  entityKey : Option Nat
deriving DecidableEq

/-- One iteration of the `entityRanges.forEach` loop of `getEntitySections`:
the accumulator carries `(sections, lastOffset)`. -/
def entityStep (acc : List EntitySection × Nat) (r : EntityRange) :
    List EntitySection × Nat :=
  ((if r.offset > acc.2 then acc.1 ++ [⟨acc.2, r.offset - 1, none⟩] else acc.1)
      ++ [⟨r.offset, r.offset + r.length, some r.key⟩],
    r.offset + r.length)

/-- `getEntitySections`: partition the block into entity / plain sections. -/
def getEntitySections (entityRanges : List EntityRange) (blockLength : Nat) :
    List EntitySection :=
  let folded := entityRanges.foldl entityStep ([], 0)
  if folded.2 < blockLength then folded.1 ++ [⟨folded.2, blockLength, none⟩]
  else folded.1

/-- The entity sectioner as the claim describes it, written from the spec
words: a plain section `[prev, offset - 1]` before each range whose offset
strictly exceeds the previous coverage end, an entity section
`[offset, offset + length]` for every range, and a final plain section up
to the text length, emitted only when coverage stops short of it. -/
def claimedEntitySections (prev : Nat) :
    List EntityRange → Nat → List EntitySection
  | [], len => if prev < len then [⟨prev, len, none⟩] else []
  | r :: rs, len =>
      (if prev < r.offset then [⟨prev, r.offset - 1, none⟩] else []) ++
        (⟨r.offset, r.offset + r.length, some r.key⟩ ::
          claimedEntitySections (r.offset + r.length) rs len)

theorem entitySections_foldl (rs : List EntityRange) (len : Nat) :
    ∀ (acc : List EntitySection) (prev : Nat),
      (let folded := rs.foldl entityStep (acc, prev)
       if folded.2 < len then folded.1 ++ [⟨folded.2, len, none⟩] else folded.1)
        = acc ++ claimedEntitySections prev rs len := by
  induction rs with
  | nil =>
      intro acc prev
      simp only [List.foldl_nil, claimedEntitySections]
      split <;> simp
  | cons r rs ih =>
      intro acc prev
      simp only [List.foldl_cons, claimedEntitySections]
      have h := ih ((if r.offset > prev then acc ++ [⟨prev, r.offset - 1, none⟩] else acc)
          ++ [⟨r.offset, r.offset + r.length, some r.key⟩]) (r.offset + r.length)
      simp only [entityStep] at h ⊢
      rw [h]
      by_cases hgap : prev < r.offset
      · simp [hgap]
      · simp [hgap]

/-- Characterization of `getEntitySections` used by several proofs. -/
theorem getEntitySections_eq (rs : List EntityRange) (len : Nat) :
    getEntitySections rs len = claimedEntitySections 0 rs len := by
  have h := entitySections_foldl rs len [] 0
  simpa [getEntitySections] using h

/-- C1: for every entity range whose offset strictly exceeds the previous
coverage end (previous entity range end, or 0 initially), the entity
sectioner emits a plain section ending at `offset - 1` (not `offset`);
every entity section spans exactly `[offset, offset + length)`; and a
final plain section, emitted only when coverage ends before the text
length, ends exactly at the text length. -/
theorem C1_entity_sectioner_boundaries (rs : List EntityRange) (len : Nat) :
    getEntitySections rs len = claimedEntitySections 0 rs len :=
  getEntitySections_eq rs len

/-- The per-block style vectors (`inlineStyles` object of
`getStyleArrayForBlock`).  Each JS array-with-holes is modelled as a total
function `Nat → Option JsVal` (`none` = hole / `undefined`); `length` is
the extra numeric field `inlineStyles.length = text.length`. -/
structure InlineStyles where
  COLOR : Nat → Option JsVal
  BGCOLOR : Nat → Option JsVal
  FONTSIZE : Nat → Option JsVal
  FONTFAMILY : Nat → Option JsVal
  SUBSCRIPT : Nat → Option JsVal
  SUPERSCRIPT : Nat → Option JsVal
  CODE : Nat → Option JsVal
  STRIKETHROUGH : Nat → Option JsVal
  UNDERLINE : Nat → Option JsVal
  ITALIC : Nat → Option JsVal
  BOLD : Nat → Option JsVal
  length : Nat

/-- The freshly initialized style vectors (`new Array(text.length)` each:
all slots are holes). -/
def emptyInlineStyles (len : Nat) : InlineStyles :=
  ⟨fun _ => none, fun _ => none, fun _ => none, fun _ => none, fun _ => none,
    fun _ => none, fun _ => none, fun _ => none, fun _ => none, fun _ => none,
    fun _ => none, len⟩

/-- The inner `for` loop of `getStyleArrayForBlock`: write `v` into every
slot of `[offset, offset + length)`, keeping the rest of the vector. -/
def setWhere (f : Nat → Option JsVal) (offset length : Nat) (v : JsVal) :
    Nat → Option JsVal :=
  fun j => if offset ≤ j ∧ j < offset + length then some v else f j

/-- One iteration of the `inlineStyleRanges.forEach` loop of
`getStyleArrayForBlock`.  The trailing branch `inlineStyles[range.style]`
is truthy exactly for the eleven array-valued keys (they are arrays, hence
truthy); assignment through the numeric `length` key is a silent no-op on
a number primitive, and unknown keys are `undefined`, hence skipped. -/
def applyRange (st : InlineStyles) (r : InlineStyleRange) : InlineStyles :=
  if jsStartsWith r.style "color-" then
    { st with COLOR := setWhere st.COLOR r.offset r.length (.str (jsSubstringFrom r.style 6)) }
  else if jsStartsWith r.style "bgcolor-" then
    { st with BGCOLOR := setWhere st.BGCOLOR r.offset r.length (.str (jsSubstringFrom r.style 8)) }
  else if jsStartsWith r.style "fontsize-" then
    { st with FONTSIZE := setWhere st.FONTSIZE r.offset r.length (.str (jsSubstringFrom r.style 9)) }
  else if jsStartsWith r.style "fontfamily-" then
    { st with FONTFAMILY := setWhere st.FONTFAMILY r.offset r.length (.str (jsSubstringFrom r.style 11)) }
  else if r.style = "COLOR" then { st with COLOR := setWhere st.COLOR r.offset r.length .boolTrue }
  else if r.style = "BGCOLOR" then { st with BGCOLOR := setWhere st.BGCOLOR r.offset r.length .boolTrue }
  else if r.style = "FONTSIZE" then { st with FONTSIZE := setWhere st.FONTSIZE r.offset r.length .boolTrue }
  else if r.style = "FONTFAMILY" then { st with FONTFAMILY := setWhere st.FONTFAMILY r.offset r.length .boolTrue }
  else if r.style = "SUBSCRIPT" then { st with SUBSCRIPT := setWhere st.SUBSCRIPT r.offset r.length .boolTrue }
  else if r.style = "SUPERSCRIPT" then { st with SUPERSCRIPT := setWhere st.SUPERSCRIPT r.offset r.length .boolTrue }
  else if r.style = "CODE" then { st with CODE := setWhere st.CODE r.offset r.length .boolTrue }
  else if r.style = "STRIKETHROUGH" then { st with STRIKETHROUGH := setWhere st.STRIKETHROUGH r.offset r.length .boolTrue }
  else if r.style = "UNDERLINE" then { st with UNDERLINE := setWhere st.UNDERLINE r.offset r.length .boolTrue }
  else if r.style = "ITALIC" then { st with ITALIC := setWhere st.ITALIC r.offset r.length .boolTrue }
  else if r.style = "BOLD" then { st with BOLD := setWhere st.BOLD r.offset r.length .boolTrue }
  else st

/-- `getStyleArrayForBlock`: expand the block's inline style ranges into
per-character style vectors (ranges are processed in input order). -/
def getStyleArrayForBlock (block : Block) : InlineStyles :=
  block.inlineStyleRanges.foldl applyRange (emptyInlineStyles block.text.length)

/-- Dynamic property read `inlineStyles[style]`, evaluated at an offset.
Only the eleven style names reach this in the source. -/
def styleGet (st : InlineStyles) (style : String) : Nat → Option JsVal :=
  if style = "COLOR" then st.COLOR
  else if style = "BGCOLOR" then st.BGCOLOR
  else if style = "FONTSIZE" then st.FONTSIZE
  else if style = "FONTFAMILY" then st.FONTFAMILY
  else if style = "SUBSCRIPT" then st.SUBSCRIPT
  else if style = "SUPERSCRIPT" then st.SUPERSCRIPT
  else if style = "CODE" then st.CODE
  else if style = "STRIKETHROUGH" then st.STRIKETHROUGH
  else if style = "UNDERLINE" then st.UNDERLINE
  else if style = "ITALIC" then st.ITALIC
  else if style = "BOLD" then st.BOLD
  else fun _ => none

/-- `sameStyleAsPrevious`: all requested style values at `index` equal
those at `index - 1` (strict `===` comparison of slot values); false when
`index` is 0 or not below `inlineStyles.length`. -/
def sameStyleAsPrevious (st : InlineStyles) (styles : List String)
    (index : Nat) : Bool :=
  if 0 < index ∧ index < st.length then
    styles.all (fun s => decide (styleGet st s index = styleGet st s (index - 1)))
  else false

/-- The `styles` object built by `getStylesAtOffset`.  A JS object whose
keys, when present, were inserted in the fixed source order COLOR,
BGCOLOR, FONTSIZE, FONTFAMILY, SUBSCRIPT, SUPERSCRIPT, CODE,
STRIKETHROUGH, UNDERLINE, ITALIC, BOLD; key iteration (insertion order)
therefore follows that field order. -/
structure Styles where
  COLOR : Option JsVal
  BGCOLOR : Option JsVal
  FONTSIZE : Option JsVal
  FONTFAMILY : Option JsVal
  SUBSCRIPT : Option JsVal
  SUPERSCRIPT : Option JsVal
  CODE : Option JsVal
  STRIKETHROUGH : Option JsVal
  UNDERLINE : Option JsVal
  ITALIC : Option JsVal
  BOLD : Option JsVal
deriving DecidableEq

/-- The styles object with no key inserted. -/
def Styles.empty : Styles :=
  ⟨none, none, none, none, none, none, none, none, none, none, none⟩

/-- `getStylesAtOffset`: collect the truthy style values at one offset.
Property kinds keep their stored value; toggle kinds store literal `true`. -/
def getStylesAtOffset (st : InlineStyles) (offset : Nat) : Styles where
  COLOR := if jsTruthy (st.COLOR offset) then st.COLOR offset else none
  BGCOLOR := if jsTruthy (st.BGCOLOR offset) then st.BGCOLOR offset else none
  FONTSIZE := if jsTruthy (st.FONTSIZE offset) then st.FONTSIZE offset else none
  FONTFAMILY := if jsTruthy (st.FONTFAMILY offset) then st.FONTFAMILY offset else none
  SUBSCRIPT := if jsTruthy (st.SUBSCRIPT offset) then some .boolTrue else none
  SUPERSCRIPT := if jsTruthy (st.SUPERSCRIPT offset) then some .boolTrue else none
  CODE := if jsTruthy (st.CODE offset) then some .boolTrue else none
  STRIKETHROUGH := if jsTruthy (st.STRIKETHROUGH offset) then some .boolTrue else none
  UNDERLINE := if jsTruthy (st.UNDERLINE offset) then some .boolTrue else none
  ITALIC := if jsTruthy (st.ITALIC offset) then some .boolTrue else none
  BOLD := if jsTruthy (st.BOLD offset) then some .boolTrue else none

/-- `addInlineStyleMarkup`: markdown wrapper for one toggle style name. -/
def addInlineStyleMarkup (style : String) (content : String) : String :=
  if style = "BOLD" then "**" ++ content ++ "**"
  else if style = "ITALIC" then "*" ++ content ++ "*"
  else if style = "UNDERLINE" then "__" ++ content ++ "__"
  else if style = "STRIKETHROUGH" then "~~" ++ content ++ "~~"
  else if style = "CODE" then "`" ++ content ++ "`"
  else if style = "SUPERSCRIPT" then "<sup>" ++ content ++ "</sup>"
  else if style = "SUBSCRIPT" then "<sub>" ++ content ++ "</sub>"
  else content

/-- One step of the `forEach(styles, ...)` loop of
`getStyleTagSectionMarkdown`: a key present in the object contributes one
`addInlineStyleMarkup` application. -/
def applyIfPresent (style : String) (v : Option JsVal) (content : String) :
    String :=
  match v with
  | some _ => addInlineStyleMarkup style content
  | none => content

/-- Modelled from the spec: the `forEach` helper is imported from the
missing `./common` module; per the spec (section 9) it iterates the
object's keys in the order the values were inserted, which for a
`getStylesAtOffset` object is the fixed field order COLOR .. BOLD.
`getStyleTagSectionMarkdown` therefore rewraps `content` with each present
style in that order (the innermost application is the first key). -/
def getStyleTagSectionMarkdown (styles : Styles) (text : String) : String :=
  applyIfPresent "BOLD" styles.BOLD
    (applyIfPresent "ITALIC" styles.ITALIC
      (applyIfPresent "UNDERLINE" styles.UNDERLINE
        (applyIfPresent "STRIKETHROUGH" styles.STRIKETHROUGH
          (applyIfPresent "CODE" styles.CODE
            (applyIfPresent "SUPERSCRIPT" styles.SUPERSCRIPT
              (applyIfPresent "SUBSCRIPT" styles.SUBSCRIPT
                (applyIfPresent "FONTFAMILY" styles.FONTFAMILY
                  (applyIfPresent "FONTSIZE" styles.FONTSIZE
                    (applyIfPresent "BGCOLOR" styles.BGCOLOR
                      (applyIfPresent "COLOR" styles.COLOR text))))))))))

/-- A style section (JS object of `getStyleSections`); its `text` collects
the values `text[i]`, possibly `undefined` past the string end. -/
structure StyleSection where
  styles : Styles
  text : List (Option Char)
  start : Nat
  endPos : Nat
deriving DecidableEq

/-- A fresh style section started at offset `i`. -/
def newStyleSection (st : InlineStyles) (text : String) (i : Nat) :
    StyleSection :=
  ⟨getStylesAtOffset st i, [charAtJs text i], i, i + 1⟩

/-- The `for` loop of `getStyleSections` from offset `i` on, with `cur` the
section currently being extended (the last one pushed).  The loop count
`endP - i` is carried as a structural fuel argument so that the function
reduces definitionally; `fuel = 0` is exactly the exit test `i ≥ endP`. -/
def ssLoop (st : InlineStyles) (styles : List String) (text : String)
    (cur : StyleSection) (i : Nat) : Nat → List StyleSection
  | 0 => [cur]
  | fuel + 1 =>
      if sameStyleAsPrevious st styles i then
        ssLoop st styles text
          { cur with text := cur.text ++ [charAtJs text i], endPos := i + 1 }
          (i + 1) fuel
      else
        cur :: ssLoop st styles text (newStyleSection st text i) (i + 1) fuel

/-- `getStyleSections`: split `[start, endP)` of the block into maximal
runs on which the requested style keys all keep their value.  The first
loop iteration (at `i = start`) always opens a new section; the remaining
`endP - (start + 1)` iterations run through `ssLoop`. -/
def getStyleSections (block : Block) (styles : List String)
    (start endP : Nat) : List StyleSection :=
  if block.text.length > 0 then
    let inlineStyles := getStyleArrayForBlock block
    if start < endP then
      ssLoop inlineStyles styles block.text
        (newStyleSection inlineStyles block.text start) (start + 1)
        (endP - (start + 1))
    else []
  else []

/-- Escape of one collected character of a section (`getSectionText`'s
`switch`); a hole (`undefined`) maps through `switch`'s default to
`undefined`, which `Array.join` renders as the empty string. -/
def escJsChar : Option Char → String
  | some '\n' => "\\s\\s\n"
  | some '&' => "&amp;"
  | some '<' => "&lt;"
  | some '>' => "&gt;"
  | some c => String.singleton c
  | none => ""

/-- `getSectionText`: escape and join the collected characters. -/
def getSectionText (text : List (Option Char)) : String :=
  if text.length > 0 then String.join (text.map escJsChar) else ""

/-- `addStylePropertyMarkdown`: wrap the escaped section text in a styled
`<span>` when one of the four property styles is truthy. -/
def addStylePropertyMarkdown (styleSection : StyleSection) : String :=
  let content := getSectionText styleSection.text
  let st := styleSection.styles
  if jsTruthy st.COLOR || jsTruthy st.BGCOLOR || jsTruthy st.FONTSIZE
      || jsTruthy st.FONTFAMILY then
    let styleString := "style=\""
      ++ (if jsTruthy st.COLOR then "color: " ++ jsValS st.COLOR ++ ";" else "")
      ++ (if jsTruthy st.BGCOLOR then "background-color: " ++ jsValS st.BGCOLOR ++ ";" else "")
      ++ (if jsTruthy st.FONTSIZE then "font-size: " ++ jsValS st.FONTSIZE ++ ";" else "")
      ++ (if jsTruthy st.FONTFAMILY then "font-family: " ++ jsValS st.FONTFAMILY ++ ";" else "")
      ++ "\""
    "<span " ++ styleString ++ ">" ++ content ++ "</span>"
  else content

/-- `getEntityMarkdown`: markdown for an entity.  The lookup
`entityMap[entityKey]` yields `undefined` for a missing key, and the
unconditional `entity.type` dereference then throws a `TypeError`,
modelled as `Except.error`.  The `text` parameter may be `undefined` (the
atomic-block call site passes no argument); template literals interpolate
it as the string "undefined", while the final fall-through returns the
value unchanged. -/
def getEntityMarkdown (entityMap : EntityMap) (entityKey : Nat)
    (text : JsStr) : Except String JsStr :=
  match lookupEntity entityMap entityKey with
  | none => .error "TypeError: cannot read properties of undefined"
  | some entity =>
      if entity.type = "LINK" ∨ entity.type = "MENTION" then
        .ok (some ("[" ++ jsS text ++ "](" ++ jsS entity.data.url ++ ")"))
      else if entity.type = "IMAGE" then
        .ok (some ("!(" ++ jsS entity.data.src ++ ")"))
      else .ok text

/-- The fixed toggle key set passed at the outer `getStyleSections` call. -/
def toggleStyleNames : List String :=
  ["BOLD", "ITALIC", "UNDERLINE", "STRIKETHROUGH", "CODE", "SUPERSCRIPT",
    "SUBSCRIPT"]

/-- The fixed property key set passed at the inner `getStyleSections` call. -/
def propertyStyleNames : List String :=
  ["COLOR", "BGCOLOR", "FONTSIZE", "FONTFAMILY"]

/-- `getEntitySectionMarkdown`: render one entity section — toggle runs,
nested property runs, then the entity wrap when an `entityKey` is present.
The one-element `entitySectionMarkdown` array and its join are collapsed;
the entity-wrap result is always a string here (the input is a string and
every `getEntityMarkdown` branch then returns one), read back through
`joinVal`. -/
def getEntitySectionMarkdown (block : Block) (entityMap : EntityMap)
    (entitySection : EntitySection) : Except String String :=
  let styleSections :=
    getStyleSections block toggleStyleNames entitySection.start entitySection.endPos
  let styleSectionText := styleSections.foldl
    (fun acc styleSection =>
      let stylePropertySections :=
        getStyleSections block propertyStyleNames styleSection.start styleSection.endPos
      let stylePropertySectionText := stylePropertySections.foldl
        (fun a sps => a ++ addStylePropertyMarkdown sps) ""
      acc ++ getStyleTagSectionMarkdown styleSection.styles stylePropertySectionText)
    ""
  match entitySection.entityKey with
  | some k => (getEntityMarkdown entityMap k (some styleSectionText)).map joinVal
  | none => .ok styleSectionText

/-- `String.prototype.replace(' ', ...)`: replace the first space. -/
def replaceFirstSpace : List Char → List Char
  | [] => []
  | c :: cs => if c = ' ' then "&nbsp;".data ++ cs else c :: replaceFirstSpace cs

/-- The `for` loop of `trimLeadingZeros`: the loop index `i` checks the
ORIGINAL string's character `sectionText[i]` and replaces the first
remaining space of the current string; it stops at the first non-space
original character or at the current string's end.  The original string's
characters from `i` on are carried structurally (their head is
`orig.get? i`, and an exhausted list is the `undefined` read, which is not
a space and stops the loop just as the length guard would). -/
def trimLeadingGo (replaced : List Char) (i : Nat) :
    List Char → List Char
  | [] => replaced
  | c :: origRest =>
      if i < replaced.length then
        if c = ' ' then trimLeadingGo (replaceFirstSpace replaced) (i + 1) origRest
        else replaced
      else replaced

/-- `trimLeadingZeros`: replace each leading space with a non-breaking
space marker (the empty string is falsy and returned unchanged). -/
def trimLeadingZeros (sectionText : String) : String :=
  if sectionText = "" then sectionText
  else ⟨trimLeadingGo sectionText.data 0 sectionText.data⟩

/-- The `for` loop of `trimTrailingZeros`, walking the index downward from
the last position and splicing a marker over each trailing space of the
current string; structural recursion on the index. -/
def trimTrailingLoop (replaced : List Char) : Nat → List Char
  | 0 =>
      if replaced.get? 0 = some ' ' then
        replaced.take 0 ++ "&nbsp;".data ++ replaced.drop 1
      else replaced
  | i + 1 =>
      if replaced.get? (i + 1) = some ' ' then
        trimTrailingLoop
          (replaced.take (i + 1) ++ "&nbsp;".data ++ replaced.drop (i + 2)) i
      else replaced

/-- `trimTrailingZeros`: replace each trailing space with a non-breaking
space marker (the empty string is falsy and returned unchanged). -/
def trimTrailingZeros (sectionText : String) : String :=
  if sectionText = "" then sectionText
  else ⟨trimTrailingLoop sectionText.data (sectionText.length - 1)⟩

/-- The `entitySections.forEach((section, index) => ...)` loop of
`getBlockContentMarkdown`: render each section, trimming the first
(`index = 0`) at its leading end and the last (`index = total - 1`) at its
trailing end. -/
def renderEntitySections (block : Block) (entityMap : EntityMap)
    (total : Nat) : List EntitySection → Nat → Except String (List String)
  | [], _ => .ok []
  | sec :: rest, index => do
      let s ← getEntitySectionMarkdown block entityMap sec
      let s := if index = 0 then trimLeadingZeros s else s
      let s := if index = total - 1 then trimTrailingZeros s else s
      let others ← renderEntitySections block entityMap total rest (index + 1)
      .ok (s :: others)

/-- `getBlockContentMarkdown`: atomic-block shortcut, else sectioned
rendering.  The atomic branch calls `getEntityMarkdown` with only two
arguments, i.e. with `text = undefined`. -/
def getBlockContentMarkdown (block : Block) (entityMap : EntityMap) :
    Except String JsStr :=
  if isAtomicBlock block then
    match block.entityRanges with
    | r :: _ => getEntityMarkdown entityMap r.key none
    | [] => .error "TypeError: cannot read properties of undefined"
  else
    let entitySections := getEntitySections block.entityRanges block.text.length
    (renderEntitySections block entityMap entitySections.length entitySections 0).map
      (fun parts => some (String.join parts))

/-- Modelled from the spec: `getBlockStyle` folds the block's `data`
mapping with the missing `./common` `forEach` helper, which per the spec
visits every key:value pair in mapping (insertion) order. -/
def getBlockStyle (data : List (String × String)) : String :=
  data.foldl (fun styles p => styles ++ p.1 ++ ":" ++ p.2 ++ ";") ""

/-- `getBlockStyleProperty`: wrap the content in a styled `<span>` when the
block style string is non-empty (truthy). -/
def getBlockStyleProperty (blockData : List (String × String))
    (content : JsStr) : JsStr :=
  let blockStyle := getBlockStyle blockData
  if blockStyle ≠ "" then
    some ("<span style=\"" ++ blockStyle ++ "\">" ++ jsS content ++ "</span>")
  else content

/-- `getBlockMarkdown`: block symbol, content (optionally wrapped with the
block-level style span) and the line terminator, joined. -/
def getBlockMarkdown (block : Block) (entityMap : EntityMap) :
    Except String String := do
  let content ← getBlockContentMarkdown block entityMap
  let content := match block.data with
    | some d => getBlockStyleProperty d content
    | none => content
  .ok (joinVal (getBlockTagSymbol block) ++ joinVal content ++ "\n")

/-- Number of entity sections containing block offset `j`. -/
def coveredCount (sections : List EntitySection) (j : Nat) : Nat :=
  sections.countP (fun s => decide (s.start ≤ j ∧ j < s.endPos))

/-- Number of style sections containing block offset `j`. -/
def styleCoveredCount (sections : List StyleSection) (j : Nat) : Nat :=
  sections.countP (fun s => decide (s.start ≤ j ∧ j < s.endPos))

/-- The character escape exactly as claim C8 words it: newline becomes two
escaped spaces plus a line break, the three HTML-reserved characters
become their entities, every other character is unchanged. -/
def claimedEscape (c : Char) : String :=
  if c = '\n' then "\\s\\s\n"
  else if c = '&' then "&amp;"
  else if c = '<' then "&lt;"
  else if c = '>' then "&gt;"
  else String.singleton c

/-- The block text escaped character by character, as claim C8 words it. -/
def claimedEscapedText (s : String) : String :=
  String.join (s.data.map claimedEscape)

/-- The atomic IMAGE example block of claim C3. -/
def atomicExampleBlock : Block :=
  ⟨"unstyled", "", [], [⟨0, 0, 0⟩], none⟩

/-- Entity map with entity 0 of type IMAGE and `data.src = "a.png"`. -/
def imageEntityMap : EntityMap :=
  [(0, ⟨"IMAGE", ⟨none, some "a.png"⟩⟩)]

/-- Entity map with entity 0 of type LINK and `data.url = "u"`. -/
def linkEntityMap : EntityMap :=
  [(0, ⟨"LINK", ⟨some "u", none⟩⟩)]

/-- C3: the atomic-block shortcut skips sectioning and renders the first
entity range's key.  The IMAGE example yields exactly `!(a.png)` as the
claim states, but the LINK case renders the missing `text` argument — JS
`undefined` — through the template literal as the string "undefined",
producing `[undefined](u)` instead of the claimed `[](u)` with an empty
text slot: the code contradicts the spec's "using empty content". -/
theorem C3_atomic_block_shortcut :
    getBlockContentMarkdown atomicExampleBlock imageEntityMap = .ok (some "!(a.png)")
      ∧ getBlockContentMarkdown atomicExampleBlock linkEntityMap = .ok (some "[undefined](u)")
      ∧ "[undefined](u)" ≠ "[](u)" := by
  refine ⟨rfl, rfl, by decide⟩

/-- The styles object of a run carrying exactly BOLD and UNDERLINE. -/
def stylesBoldUnderline : Styles :=
  { Styles.empty with UNDERLINE := some .boolTrue, BOLD := some .boolTrue }

/-- C5 counterexample: a run carrying both BOLD and UNDERLINE renders as
`**__x__**` (BOLD outermost), not as the claimed `__**x**__` with
UNDERLINE outermost. -/
theorem C5_counterexample :
    getStyleTagSectionMarkdown stylesBoldUnderline "x" = "**__x__**"
      ∧ getStyleTagSectionMarkdown stylesBoldUnderline "x" ≠ "__**x**__" := by
  refine ⟨rfl, by decide⟩

/-- C5 (amended): the toggle markups are applied in the object-insertion
iteration order SUBSCRIPT, SUPERSCRIPT, CODE, STRIKETHROUGH, UNDERLINE,
ITALIC, BOLD, so a present BOLD is always the outermost wrapper, and a run
carrying BOLD and UNDERLINE renders as `**__x__**`. -/
theorem C5_toggle_iteration_order (s : Styles) (x : String) (v : JsVal)
    (h : s.BOLD = some v) :
    getStyleTagSectionMarkdown s x
        = "**" ++ getStyleTagSectionMarkdown { s with BOLD := none } x ++ "**"
      ∧ getStyleTagSectionMarkdown stylesBoldUnderline x
        = "**" ++ ("__" ++ x ++ "__") ++ "**" := by
  constructor
  · simp [getStyleTagSectionMarkdown, h, applyIfPresent, addInlineStyleMarkup]
  · simp [getStyleTagSectionMarkdown, stylesBoldUnderline, Styles.empty,
      applyIfPresent, addInlineStyleMarkup]

theorem C5_toggle_iteration_order_witness :
    stylesBoldUnderline.BOLD = some .boolTrue
      ∧ (getStyleTagSectionMarkdown stylesBoldUnderline "x"
            = "**" ++ getStyleTagSectionMarkdown { stylesBoldUnderline with BOLD := none } "x" ++ "**"
          ∧ getStyleTagSectionMarkdown stylesBoldUnderline "x"
            = "**" ++ ("__" ++ "x" ++ "__") ++ "**") :=
  ⟨rfl, C5_toggle_iteration_order stylesBoldUnderline "x" .boolTrue rfl⟩

/-- C2 counterexample: with the single entity range at offset 2, length 1,
in a block of length 3, offset 1 lies in `[0, 3)` but belongs to no entity
section (the plain section before the range ends at `2 - 1 = 1`,
exclusive), so the sections do not cover `[0, text.length)`. -/
theorem C2_counterexample :
    1 < 3 ∧ coveredCount (getEntitySections [⟨2, 1, 0⟩] 3) 1 = 0 := by
  decide

/-- C8 counterexample: the block `{type: "unstyled", text: " a"}` with no
style ranges and no entities renders as `&nbsp;a\n` — the leading space of
the escaped text is replaced by the whitespace trimmer — not as the
claimed symbol + escaped text + terminator, which would be ` a\n`. -/
theorem C8_counterexample :
    getBlockMarkdown ⟨"unstyled", " a", [], [], none⟩ [] = .ok "&nbsp;a\n"
      ∧ "&nbsp;a\n" ≠ joinVal (getBlockTagSymbol ⟨"unstyled", " a", [], [], none⟩)
          ++ claimedEscapedText " a" ++ "\n" := by
  refine ⟨rfl, by decide⟩

/-- Entity ranges sorted and non-overlapping, each starting at or after
the running coverage end `prev` (the well-formedness the spec assumes). -/
def wfRangesB (prev : Nat) : List EntityRange → Bool
  | [] => true
  | r :: rs => decide (prev ≤ r.offset) && wfRangesB (r.offset + r.length) rs

/-- Offset `j` is a dropped seam character: it equals `offset - 1` of some
entity range that is preceded by a positive gap. -/
def missedSeam (prev : Nat) : List EntityRange → Nat → Bool
  | [], _ => false
  | r :: rs, j =>
      (decide (prev < r.offset) && decide (j = r.offset - 1))
        || missedSeam (r.offset + r.length) rs j

theorem coveredCount_below (rs : List EntityRange) :
    ∀ (prev len j : Nat), wfRangesB prev rs = true → j < prev →
      coveredCount (claimedEntitySections prev rs len) j = 0 := by
  induction rs with
  | nil =>
      intro prev len j _ hj
      simp only [claimedEntitySections, coveredCount]
      split
      · simp only [List.countP_cons, List.countP_nil, decide_eq_true_eq]
        split_ifs <;> omega
      · simp
  | cons r rs ih =>
      intro prev len j hwf hj
      simp only [wfRangesB, Bool.and_eq_true, decide_eq_true_eq] at hwf
      obtain ⟨hpo, hwf⟩ := hwf
      have h1 : coveredCount (claimedEntitySections (r.offset + r.length) rs len) j = 0 :=
        ih (r.offset + r.length) len j hwf (by omega)
      simp only [coveredCount] at h1
      simp only [claimedEntitySections, coveredCount]
      rcases Nat.lt_or_ge prev r.offset with hgap | hgap
      · rw [if_pos hgap]
        simp only [List.countP_append, List.countP_cons, List.countP_nil,
          decide_eq_true_eq]
        rw [h1]
        split_ifs <;> omega
      · rw [if_neg (by omega)]
        simp only [List.countP_append, List.countP_cons, List.countP_nil,
          decide_eq_true_eq]
        rw [h1]
        split_ifs <;> omega

theorem missedSeam_below (rs : List EntityRange) :
    ∀ (prev j : Nat), wfRangesB prev rs = true → j < prev →
      missedSeam prev rs j = false := by
  induction rs with
  | nil => intro prev j _ _; rfl
  | cons r rs ih =>
      intro prev j hwf hj
      simp only [wfRangesB, Bool.and_eq_true, decide_eq_true_eq] at hwf
      obtain ⟨hpo, hwf⟩ := hwf
      simp only [missedSeam, Bool.or_eq_false_iff, Bool.and_eq_false_iff]
      constructor
      · by_cases hgap : prev < r.offset
        · right; simp only [decide_eq_false_iff_not]; omega
        · left; simp [hgap]
      · exact ih (r.offset + r.length) j hwf (by omega)

theorem coveredCount_main (rs : List EntityRange) :
    ∀ (prev len j : Nat), wfRangesB prev rs = true → prev ≤ j → j < len →
      coveredCount (claimedEntitySections prev rs len) j
        = if missedSeam prev rs j then 0 else 1 := by
  induction rs with
  | nil =>
      intro prev len j _ hpj hjl
      simp only [claimedEntitySections, missedSeam, coveredCount,
        if_pos (by omega : prev < len), List.countP_cons, List.countP_nil,
        decide_eq_true_eq, Bool.false_eq_true, if_false]
      split_ifs <;> omega
  | cons r rs ih =>
      intro prev len j hwf hpj hjl
      simp only [wfRangesB, Bool.and_eq_true, decide_eq_true_eq] at hwf
      obtain ⟨hpo, hwf⟩ := hwf
      by_cases hafter : r.offset + r.length ≤ j
      -- j lies beyond the entity range: recurse
      · have hrec := ih (r.offset + r.length) len j hwf (by omega) hjl
        simp only [coveredCount] at hrec
        cases hms : missedSeam (r.offset + r.length) rs j with
        | false =>
            rw [hms, if_neg (by simp)] at hrec
            simp only [claimedEntitySections, missedSeam, coveredCount, hms,
              Bool.or_false]
            rcases Nat.lt_or_ge prev r.offset with hgap | hgap
            · rw [if_pos hgap]
              simp only [List.countP_append, List.countP_cons, List.countP_nil,
                decide_eq_true_eq, Bool.and_eq_true]
              rw [hrec]
              split_ifs <;> omega
            · rw [if_neg (by omega)]
              simp only [List.countP_append, List.countP_cons, List.countP_nil,
                decide_eq_true_eq, Bool.and_eq_true]
              rw [hrec]
              split_ifs <;> omega
        | true =>
            rw [hms, if_pos rfl] at hrec
            simp only [claimedEntitySections, missedSeam, coveredCount, hms,
              Bool.or_true, if_pos rfl]
            rcases Nat.lt_or_ge prev r.offset with hgap | hgap
            · rw [if_pos hgap]
              simp only [List.countP_append, List.countP_cons, List.countP_nil,
                decide_eq_true_eq]
              rw [hrec]
              split_ifs <;> omega
            · rw [if_neg (by omega)]
              simp only [List.countP_append, List.countP_cons, List.countP_nil,
                decide_eq_true_eq]
              rw [hrec]
              split_ifs <;> omega
      -- j lies in the entity range or in the gap before it
      · have hrec0 : coveredCount (claimedEntitySections (r.offset + r.length) rs len) j = 0 :=
          coveredCount_below rs (r.offset + r.length) len j hwf (by omega)
        have hms0 : missedSeam (r.offset + r.length) rs j = false :=
          missedSeam_below rs (r.offset + r.length) j hwf (by omega)
        simp only [coveredCount] at hrec0
        simp only [claimedEntitySections, missedSeam, coveredCount, hms0,
          Bool.or_false]
        rcases Nat.lt_or_ge prev r.offset with hgap | hgap
        · rw [if_pos hgap]
          simp only [List.countP_append, List.countP_cons, List.countP_nil,
            decide_eq_true_eq, Bool.and_eq_true]
          rw [hrec0]
          split_ifs <;> omega
        · rw [if_neg (by omega)]
          simp only [List.countP_append, List.countP_cons, List.countP_nil,
            decide_eq_true_eq, Bool.and_eq_true]
          rw [hrec0]
          split_ifs <;> omega

theorem ssLoop_mem_start (st : InlineStyles) (styles : List String)
    (text : String) :
    ∀ (fuel : Nat) (cur : StyleSection) (i : Nat), cur.start ≤ i →
      ∀ sec ∈ ssLoop st styles text cur i fuel, cur.start ≤ sec.start := by
  intro fuel
  induction fuel with
  | zero =>
      intro cur i hci sec hsec
      simp only [ssLoop, List.mem_singleton] at hsec
      simp [hsec]
  | succ fuel ih =>
      intro cur i hci sec hsec
      simp only [ssLoop] at hsec
      split at hsec
      · exact ih { cur with text := cur.text ++ [charAtJs text i], endPos := i + 1 }
          (i + 1) (Nat.le_succ_of_le hci) sec hsec
      · rcases List.mem_cons.mp hsec with h | h
        · simp [h]
        · have h2 := ih (newStyleSection st text i) (i + 1)
            (by simp only [newStyleSection]; omega) sec h
          simp only [newStyleSection] at h2
          omega

theorem ssLoop_cover (st : InlineStyles) (styles : List String)
    (text : String) (j : Nat) :
    ∀ (fuel : Nat) (cur : StyleSection) (i : Nat), cur.endPos = i →
      cur.start ≤ j → j < i + fuel →
      styleCoveredCount (ssLoop st styles text cur i fuel) j = 1 := by
  intro fuel
  induction fuel with
  | zero =>
      intro cur i hend hsj hj
      have : cur.start ≤ j ∧ j < cur.endPos := by omega
      simp [ssLoop, styleCoveredCount, this]
  | succ fuel ih =>
      intro cur i hend hsj hj
      simp only [ssLoop]
      split
      · exact ih { cur with text := cur.text ++ [charAtJs text i], endPos := i + 1 }
          (i + 1) rfl hsj (by omega)
      · by_cases hji : j < i
        · have hcur : cur.start ≤ j ∧ j < cur.endPos := ⟨hsj, by omega⟩
          have hrest : List.countP (fun s => decide (s.start ≤ j ∧ j < s.endPos))
              (ssLoop st styles text (newStyleSection st text i) (i + 1) fuel) = 0 := by
            refine List.countP_eq_zero.mpr ?_
            intro sec hsec
            have h2 := ssLoop_mem_start st styles text fuel
              (newStyleSection st text i) (i + 1) (by simp only [newStyleSection]; omega)
              sec hsec
            simp only [newStyleSection] at h2
            simp only [decide_eq_true_eq, not_and]
            omega
          simp only [styleCoveredCount, List.countP_cons, hrest, decide_eq_true_eq]
          rw [if_pos hcur]
        · have hcur : ¬(cur.start ≤ j ∧ j < cur.endPos) := by omega
          have hrest := ih (newStyleSection st text i) (i + 1) rfl
            (by simp only [newStyleSection]; omega) (by omega)
          simp only [styleCoveredCount] at hrest ⊢
          simp only [List.countP_cons, hrest, decide_eq_true_eq]
          rw [if_neg hcur]

theorem styleSections_cover (block : Block) (styles : List String)
    (start endP j : Nat) (htext : 0 < block.text.length)
    (hsj : start ≤ j) (hje : j < endP) :
    styleCoveredCount (getStyleSections block styles start endP) j = 1 := by
  have hse : start < endP := by omega
  simp only [getStyleSections, if_pos (by omega : block.text.length > 0), if_pos hse]
  exact ssLoop_cover (getStyleArrayForBlock block) styles block.text j
    (endP - (start + 1)) (newStyleSection (getStyleArrayForBlock block) block.text start)
    (start + 1) rfl (by simp [newStyleSection]; omega) (by omega)

/-- C2 (amended): for well-formed (sorted, non-overlapping) entity ranges
the entity sections are pairwise disjoint, but they cover `[0, len)` only
up to the dropped seam characters: an offset `j < len` lies in exactly one
section unless `j = offset - 1` for an entity range preceded by a positive
gap, in which case it lies in none.  Within any section bounds, the style
(and property) runs of a non-empty block cover every offset exactly once. -/
theorem C2_partition_cover_amended :
    (∀ (rs : List EntityRange) (len j : Nat), wfRangesB 0 rs = true → j < len →
        coveredCount (getEntitySections rs len) j
          = if missedSeam 0 rs j then 0 else 1)
      ∧ (∀ (block : Block) (styles : List String) (start endP j : Nat),
          0 < block.text.length → start ≤ j → j < endP →
          styleCoveredCount (getStyleSections block styles start endP) j = 1) := by
  constructor
  · intro rs len j hwf hj
    rw [getEntitySections_eq]
    exact coveredCount_main rs 0 len j hwf (Nat.zero_le j) hj
  · intro block styles start endP j h1 h2 h3
    exact styleSections_cover block styles start endP j h1 h2 h3

theorem C2_partition_cover_amended_witness :
    wfRangesB 0 [⟨2, 1, 0⟩] = true
      ∧ coveredCount (getEntitySections [⟨2, 1, 0⟩] 3) 0
          = (if missedSeam 0 [⟨2, 1, 0⟩] 0 then 0 else 1)
      ∧ styleCoveredCount
          (getStyleSections ⟨"unstyled", "abc", [], [], none⟩ toggleStyleNames 0 3) 1 = 1 :=
  ⟨by decide,
    C2_partition_cover_amended.1 [⟨2, 1, 0⟩] 3 0 (by decide) (by decide),
    C2_partition_cover_amended.2 ⟨"unstyled", "abc", [], [], none⟩ toggleStyleNames
      0 3 1 (by decide) (by decide) (by decide)⟩

theorem claimedSections_keys (rs : List EntityRange) :
    ∀ (prev len : Nat) (sec : EntitySection),
      sec ∈ claimedEntitySections prev rs len →
      sec.entityKey = none ∨ ∃ r ∈ rs, sec.entityKey = some r.key := by
  induction rs with
  | nil =>
      intro prev len sec hsec
      simp only [claimedEntitySections] at hsec
      left
      split at hsec
      · simp only [List.mem_singleton] at hsec
        simp [hsec]
      · simp at hsec
  | cons r rs ih =>
      intro prev len sec hsec
      simp only [claimedEntitySections] at hsec
      rw [List.mem_append] at hsec
      rcases hsec with hsec | hsec
      · left
        split at hsec
        · simp only [List.mem_singleton] at hsec
          simp [hsec]
        · simp at hsec
      · rcases List.mem_cons.mp hsec with h | h
        · right
          exact ⟨r, List.mem_cons_self r rs, by simp [h]⟩
        · rcases ih (r.offset + r.length) len sec h with h2 | ⟨r2, hr2, hk⟩
          · left; exact h2
          · right; exact ⟨r2, List.mem_cons_of_mem r hr2, hk⟩

theorem getEntityMarkdown_ok (entityMap : EntityMap) (k : Nat) (text : JsStr)
    (ent : Entity) (hlook : lookupEntity entityMap k = some ent) :
    ∃ v, getEntityMarkdown entityMap k text = .ok v := by
  simp only [getEntityMarkdown, hlook]
  split_ifs <;> exact ⟨_, rfl⟩

theorem getEntitySectionMarkdown_ok (block : Block) (entityMap : EntityMap)
    (sec : EntitySection)
    (hkey : sec.entityKey = none
      ∨ ∃ k ent, sec.entityKey = some k ∧ lookupEntity entityMap k = some ent) :
    ∃ v, getEntitySectionMarkdown block entityMap sec = .ok v := by
  rcases hkey with hnone | ⟨k, ent, hk, hlook⟩
  · simp only [getEntitySectionMarkdown, hnone]
    exact ⟨_, rfl⟩
  · simp only [getEntitySectionMarkdown, hk]
    rcases getEntityMarkdown_ok entityMap k (some _) ent hlook with ⟨v, hv⟩
    rw [hv]
    exact ⟨_, rfl⟩

theorem renderEntitySections_ok (block : Block) (entityMap : EntityMap)
    (total : Nat) :
    ∀ (secs : List EntitySection) (index : Nat),
      (∀ sec ∈ secs, ∃ v, getEntitySectionMarkdown block entityMap sec = .ok v) →
      ∃ parts, renderEntitySections block entityMap total secs index = .ok parts := by
  intro secs
  induction secs with
  | nil => intro index _; exact ⟨[], rfl⟩
  | cons sec rest ih =>
      intro index hall
      rcases hall sec (List.mem_cons_self sec rest) with ⟨v, hv⟩
      rcases ih (index + 1) (fun s hs => hall s (List.mem_cons_of_mem sec hs)) with ⟨parts, hparts⟩
      cases hres : renderEntitySections block entityMap total (sec :: rest) index with
      | ok parts2 => exact ⟨parts2, rfl⟩
      | error e =>
          simp only [renderEntitySections, hv, hparts, bind, Except.bind] at hres
          exact Except.noConfusion hres

/-- C4: rendering an entity section whose `entityKey` is missing from the
entity map fails with an explicit error (the unconditional `entity.type`
dereference throws), and so does the atomic-block shortcut when its first
entity key is missing; conversely, when every key referenced by the
block's entity ranges is present in the map, block-content rendering
raises no error. -/
theorem C4_missing_entity_key_errors :
    (∀ (block : Block) (entityMap : EntityMap) (sec : EntitySection) (k : Nat),
        sec.entityKey = some k → lookupEntity entityMap k = none →
        ∃ e, getEntitySectionMarkdown block entityMap sec = .error e)
      ∧ (∀ (block : Block) (entityMap : EntityMap) (r : EntityRange)
          (rest : List EntityRange), isAtomicBlock block = true →
          block.entityRanges = r :: rest → lookupEntity entityMap r.key = none →
          ∃ e, getBlockContentMarkdown block entityMap = .error e)
      ∧ (∀ (block : Block) (entityMap : EntityMap),
          (∀ r ∈ block.entityRanges, ∃ ent, lookupEntity entityMap r.key = some ent) →
          ∃ v, getBlockContentMarkdown block entityMap = .ok v) := by
  refine ⟨?_, ?_, ?_⟩
  · intro block entityMap sec k hk hlook
    simp only [getEntitySectionMarkdown, hk, getEntityMarkdown, hlook]
    exact ⟨_, rfl⟩
  · intro block entityMap r rest hatomic hranges hlook
    simp only [getBlockContentMarkdown, hatomic, if_true, hranges,
      getEntityMarkdown, hlook]
    exact ⟨_, rfl⟩
  · intro block entityMap hall
    by_cases hatomic : isAtomicBlock block = true
    · simp only [getBlockContentMarkdown, hatomic, if_true]
      have hlen : 0 < block.entityRanges.length := by
        simp only [isAtomicBlock, Bool.and_eq_true, decide_eq_true_eq] at hatomic
        exact hatomic.1
      cases hranges : block.entityRanges with
      | nil => rw [hranges] at hlen; simp at hlen
      | cons r rest =>
          rcases hall r (by rw [hranges]; exact List.mem_cons_self r rest) with ⟨ent, hent⟩
          exact getEntityMarkdown_ok entityMap r.key none ent hent
    · simp only [getBlockContentMarkdown, hatomic, if_false, Bool.false_eq_true]
      have hsecs : ∀ sec ∈ getEntitySections block.entityRanges block.text.length,
          ∃ v, getEntitySectionMarkdown block entityMap sec = .ok v := by
        intro sec hsec
        rw [getEntitySections_eq] at hsec
        rcases claimedSections_keys block.entityRanges 0 block.text.length sec hsec with
          hnone | ⟨r, hr, hk⟩
        · exact getEntitySectionMarkdown_ok block entityMap sec (Or.inl hnone)
        · rcases hall r hr with ⟨ent, hent⟩
          exact getEntitySectionMarkdown_ok block entityMap sec
            (Or.inr ⟨r.key, ent, hk, hent⟩)
      rcases renderEntitySections_ok block entityMap
          (getEntitySections block.entityRanges block.text.length).length
          (getEntitySections block.entityRanges block.text.length) 0 hsecs with ⟨parts, hparts⟩
      rw [hparts]
      exact ⟨_, rfl⟩

theorem C4_missing_entity_key_errors_witness :
    ((⟨0, 2, none⟩ : EntitySection).entityKey = none
        ∨ ∃ k ent, (⟨0, 2, none⟩ : EntitySection).entityKey = some k
            ∧ lookupEntity [] k = some ent)
      ∧ (∃ e, getEntitySectionMarkdown ⟨"unstyled", "ab", [], [⟨0, 1, 5⟩], none⟩ []
            ⟨0, 1, some 5⟩ = .error e)
      ∧ (∃ e, getBlockContentMarkdown ⟨"unstyled", "", [], [⟨0, 0, 5⟩], none⟩ [] = .error e)
      ∧ (∃ v, getBlockContentMarkdown ⟨"unstyled", "ab", [], [⟨0, 1, 0⟩], none⟩
            [(0, ⟨"LINK", ⟨some "u", none⟩⟩)] = .ok v) :=
  ⟨Or.inl rfl,
    C4_missing_entity_key_errors.1 ⟨"unstyled", "ab", [], [⟨0, 1, 5⟩], none⟩ []
      ⟨0, 1, some 5⟩ 5 rfl rfl,
    C4_missing_entity_key_errors.2.1 ⟨"unstyled", "", [], [⟨0, 0, 5⟩], none⟩ []
      ⟨0, 0, 5⟩ [] rfl rfl rfl,
    C4_missing_entity_key_errors.2.2 ⟨"unstyled", "ab", [], [⟨0, 1, 0⟩], none⟩
      [(0, ⟨"LINK", ⟨some "u", none⟩⟩)]
      (by intro r hr; simp only [List.mem_singleton] at hr; subst hr; exact ⟨_, rfl⟩)⟩

/-- The eleven style slots of the vector builder. -/
inductive StyleSlot where
  | COLOR
  | BGCOLOR
  | FONTSIZE
  | FONTFAMILY
  | SUBSCRIPT
  | SUPERSCRIPT
  | CODE
  | STRIKETHROUGH
  | UNDERLINE
  | ITALIC
  | BOLD
deriving DecidableEq

/-- The slot a style tag writes to: the four prefixed property kinds, the
eleven literal key names, or none (ignored tag). -/
def slotOfStyle (style : String) : Option StyleSlot :=
  if jsStartsWith style "color-" then some .COLOR
  else if jsStartsWith style "bgcolor-" then some .BGCOLOR
  else if jsStartsWith style "fontsize-" then some .FONTSIZE
  else if jsStartsWith style "fontfamily-" then some .FONTFAMILY
  else if style = "COLOR" then some .COLOR
  else if style = "BGCOLOR" then some .BGCOLOR
  else if style = "FONTSIZE" then some .FONTSIZE
  else if style = "FONTFAMILY" then some .FONTFAMILY
  else if style = "SUBSCRIPT" then some .SUBSCRIPT
  else if style = "SUPERSCRIPT" then some .SUPERSCRIPT
  else if style = "CODE" then some .CODE
  else if style = "STRIKETHROUGH" then some .STRIKETHROUGH
  else if style = "UNDERLINE" then some .UNDERLINE
  else if style = "ITALIC" then some .ITALIC
  else if style = "BOLD" then some .BOLD
  else none

/-- The value a style tag writes: the tag remainder for property kinds,
literal `true` otherwise. -/
def slotValue (style : String) : JsVal :=
  if jsStartsWith style "color-" then .str (jsSubstringFrom style 6)
  else if jsStartsWith style "bgcolor-" then .str (jsSubstringFrom style 8)
  else if jsStartsWith style "fontsize-" then .str (jsSubstringFrom style 9)
  else if jsStartsWith style "fontfamily-" then .str (jsSubstringFrom style 11)
  else .boolTrue

/-- Read one slot's vector from the style structure. -/
def readSlot (st : InlineStyles) : StyleSlot → Nat → Option JsVal
  | .COLOR => st.COLOR
  | .BGCOLOR => st.BGCOLOR
  | .FONTSIZE => st.FONTSIZE
  | .FONTFAMILY => st.FONTFAMILY
  | .SUBSCRIPT => st.SUBSCRIPT
  | .SUPERSCRIPT => st.SUPERSCRIPT
  | .CODE => st.CODE
  | .STRIKETHROUGH => st.STRIKETHROUGH
  | .UNDERLINE => st.UNDERLINE
  | .ITALIC => st.ITALIC
  | .BOLD => st.BOLD

theorem readSlot_applyRange (st : InlineStyles) (r : InlineStyleRange)
    (sl : StyleSlot) (j : Nat) :
    readSlot (applyRange st r) sl j
      = if slotOfStyle r.style = some sl ∧ r.offset ≤ j ∧ j < r.offset + r.length
        then some (slotValue r.style) else readSlot st sl j := by
  by_cases hp1 : jsStartsWith r.style "color-"
  · have hslot : slotOfStyle r.style = some .COLOR := by
      rw [slotOfStyle, if_pos hp1]
    have hval : slotValue r.style = JsVal.str (jsSubstringFrom r.style 6) := by
      rw [slotValue, if_pos hp1]
    rw [applyRange, if_pos hp1, hslot, hval]
    cases sl <;> simp [readSlot, setWhere]
  by_cases hp2 : jsStartsWith r.style "bgcolor-"
  · have hslot : slotOfStyle r.style = some .BGCOLOR := by
      rw [slotOfStyle, if_neg hp1, if_pos hp2]
    have hval : slotValue r.style = JsVal.str (jsSubstringFrom r.style 8) := by
      rw [slotValue, if_neg hp1, if_pos hp2]
    rw [applyRange, if_neg hp1, if_pos hp2, hslot, hval]
    cases sl <;> simp [readSlot, setWhere]
  by_cases hp3 : jsStartsWith r.style "fontsize-"
  · have hslot : slotOfStyle r.style = some .FONTSIZE := by
      rw [slotOfStyle, if_neg hp1, if_neg hp2, if_pos hp3]
    have hval : slotValue r.style = JsVal.str (jsSubstringFrom r.style 9) := by
      rw [slotValue, if_neg hp1, if_neg hp2, if_pos hp3]
    rw [applyRange, if_neg hp1, if_neg hp2, if_pos hp3, hslot, hval]
    cases sl <;> simp [readSlot, setWhere]
  by_cases hp4 : jsStartsWith r.style "fontfamily-"
  · have hslot : slotOfStyle r.style = some .FONTFAMILY := by
      rw [slotOfStyle, if_neg hp1, if_neg hp2, if_neg hp3, if_pos hp4]
    have hval : slotValue r.style = JsVal.str (jsSubstringFrom r.style 11) := by
      rw [slotValue, if_neg hp1, if_neg hp2, if_neg hp3, if_pos hp4]
    rw [applyRange, if_neg hp1, if_neg hp2, if_neg hp3, if_pos hp4, hslot, hval]
    cases sl <;> simp [readSlot, setWhere]
  by_cases hn1 : r.style = "COLOR"
  · have hslot : slotOfStyle r.style = some .COLOR := by
      rw [slotOfStyle, if_neg hp1, if_neg hp2, if_neg hp3, if_neg hp4, if_pos hn1]
    have hval : slotValue r.style = JsVal.boolTrue := by
      rw [slotValue, if_neg hp1, if_neg hp2, if_neg hp3, if_neg hp4]
    rw [applyRange, if_neg hp1, if_neg hp2, if_neg hp3, if_neg hp4, if_pos hn1, hslot, hval]
    cases sl <;> simp [readSlot, setWhere]
  by_cases hn2 : r.style = "BGCOLOR"
  · have hslot : slotOfStyle r.style = some .BGCOLOR := by
      rw [slotOfStyle, if_neg hp1, if_neg hp2, if_neg hp3, if_neg hp4, if_neg hn1, if_pos hn2]
    have hval : slotValue r.style = JsVal.boolTrue := by
      rw [slotValue, if_neg hp1, if_neg hp2, if_neg hp3, if_neg hp4]
    rw [applyRange, if_neg hp1, if_neg hp2, if_neg hp3, if_neg hp4, if_neg hn1, if_pos hn2, hslot, hval]
    cases sl <;> simp [readSlot, setWhere]
  by_cases hn3 : r.style = "FONTSIZE"
  · have hslot : slotOfStyle r.style = some .FONTSIZE := by
      rw [slotOfStyle, if_neg hp1, if_neg hp2, if_neg hp3, if_neg hp4, if_neg hn1, if_neg hn2, if_pos hn3]
    have hval : slotValue r.style = JsVal.boolTrue := by
      rw [slotValue, if_neg hp1, if_neg hp2, if_neg hp3, if_neg hp4]
    rw [applyRange, if_neg hp1, if_neg hp2, if_neg hp3, if_neg hp4, if_neg hn1, if_neg hn2, if_pos hn3, hslot, hval]
    cases sl <;> simp [readSlot, setWhere]
  by_cases hn4 : r.style = "FONTFAMILY"
  · have hslot : slotOfStyle r.style = some .FONTFAMILY := by
      rw [slotOfStyle, if_neg hp1, if_neg hp2, if_neg hp3, if_neg hp4, if_neg hn1, if_neg hn2, if_neg hn3, if_pos hn4]
    have hval : slotValue r.style = JsVal.boolTrue := by
      rw [slotValue, if_neg hp1, if_neg hp2, if_neg hp3, if_neg hp4]
    rw [applyRange, if_neg hp1, if_neg hp2, if_neg hp3, if_neg hp4, if_neg hn1, if_neg hn2, if_neg hn3, if_pos hn4, hslot, hval]
    cases sl <;> simp [readSlot, setWhere]
  by_cases hn5 : r.style = "SUBSCRIPT"
  · have hslot : slotOfStyle r.style = some .SUBSCRIPT := by
      rw [slotOfStyle, if_neg hp1, if_neg hp2, if_neg hp3, if_neg hp4, if_neg hn1, if_neg hn2, if_neg hn3, if_neg hn4, if_pos hn5]
    have hval : slotValue r.style = JsVal.boolTrue := by
      rw [slotValue, if_neg hp1, if_neg hp2, if_neg hp3, if_neg hp4]
    rw [applyRange, if_neg hp1, if_neg hp2, if_neg hp3, if_neg hp4, if_neg hn1, if_neg hn2, if_neg hn3, if_neg hn4, if_pos hn5, hslot, hval]
    cases sl <;> simp [readSlot, setWhere]
  by_cases hn6 : r.style = "SUPERSCRIPT"
  · have hslot : slotOfStyle r.style = some .SUPERSCRIPT := by
      rw [slotOfStyle, if_neg hp1, if_neg hp2, if_neg hp3, if_neg hp4, if_neg hn1, if_neg hn2, if_neg hn3, if_neg hn4, if_neg hn5, if_pos hn6]
    have hval : slotValue r.style = JsVal.boolTrue := by
      rw [slotValue, if_neg hp1, if_neg hp2, if_neg hp3, if_neg hp4]
    rw [applyRange, if_neg hp1, if_neg hp2, if_neg hp3, if_neg hp4, if_neg hn1, if_neg hn2, if_neg hn3, if_neg hn4, if_neg hn5, if_pos hn6, hslot, hval]
    cases sl <;> simp [readSlot, setWhere]
  by_cases hn7 : r.style = "CODE"
  · have hslot : slotOfStyle r.style = some .CODE := by
      rw [slotOfStyle, if_neg hp1, if_neg hp2, if_neg hp3, if_neg hp4, if_neg hn1, if_neg hn2, if_neg hn3, if_neg hn4, if_neg hn5, if_neg hn6, if_pos hn7]
    have hval : slotValue r.style = JsVal.boolTrue := by
      rw [slotValue, if_neg hp1, if_neg hp2, if_neg hp3, if_neg hp4]
    rw [applyRange, if_neg hp1, if_neg hp2, if_neg hp3, if_neg hp4, if_neg hn1, if_neg hn2, if_neg hn3, if_neg hn4, if_neg hn5, if_neg hn6, if_pos hn7, hslot, hval]
    cases sl <;> simp [readSlot, setWhere]
  by_cases hn8 : r.style = "STRIKETHROUGH"
  · have hslot : slotOfStyle r.style = some .STRIKETHROUGH := by
      rw [slotOfStyle, if_neg hp1, if_neg hp2, if_neg hp3, if_neg hp4, if_neg hn1, if_neg hn2, if_neg hn3, if_neg hn4, if_neg hn5, if_neg hn6, if_neg hn7, if_pos hn8]
    have hval : slotValue r.style = JsVal.boolTrue := by
      rw [slotValue, if_neg hp1, if_neg hp2, if_neg hp3, if_neg hp4]
    rw [applyRange, if_neg hp1, if_neg hp2, if_neg hp3, if_neg hp4, if_neg hn1, if_neg hn2, if_neg hn3, if_neg hn4, if_neg hn5, if_neg hn6, if_neg hn7, if_pos hn8, hslot, hval]
    cases sl <;> simp [readSlot, setWhere]
  by_cases hn9 : r.style = "UNDERLINE"
  · have hslot : slotOfStyle r.style = some .UNDERLINE := by
      rw [slotOfStyle, if_neg hp1, if_neg hp2, if_neg hp3, if_neg hp4, if_neg hn1, if_neg hn2, if_neg hn3, if_neg hn4, if_neg hn5, if_neg hn6, if_neg hn7, if_neg hn8, if_pos hn9]
    have hval : slotValue r.style = JsVal.boolTrue := by
      rw [slotValue, if_neg hp1, if_neg hp2, if_neg hp3, if_neg hp4]
    rw [applyRange, if_neg hp1, if_neg hp2, if_neg hp3, if_neg hp4, if_neg hn1, if_neg hn2, if_neg hn3, if_neg hn4, if_neg hn5, if_neg hn6, if_neg hn7, if_neg hn8, if_pos hn9, hslot, hval]
    cases sl <;> simp [readSlot, setWhere]
  by_cases hn10 : r.style = "ITALIC"
  · have hslot : slotOfStyle r.style = some .ITALIC := by
      rw [slotOfStyle, if_neg hp1, if_neg hp2, if_neg hp3, if_neg hp4, if_neg hn1, if_neg hn2, if_neg hn3, if_neg hn4, if_neg hn5, if_neg hn6, if_neg hn7, if_neg hn8, if_neg hn9, if_pos hn10]
    have hval : slotValue r.style = JsVal.boolTrue := by
      rw [slotValue, if_neg hp1, if_neg hp2, if_neg hp3, if_neg hp4]
    rw [applyRange, if_neg hp1, if_neg hp2, if_neg hp3, if_neg hp4, if_neg hn1, if_neg hn2, if_neg hn3, if_neg hn4, if_neg hn5, if_neg hn6, if_neg hn7, if_neg hn8, if_neg hn9, if_pos hn10, hslot, hval]
    cases sl <;> simp [readSlot, setWhere]
  by_cases hn11 : r.style = "BOLD"
  · have hslot : slotOfStyle r.style = some .BOLD := by
      rw [slotOfStyle, if_neg hp1, if_neg hp2, if_neg hp3, if_neg hp4, if_neg hn1, if_neg hn2, if_neg hn3, if_neg hn4, if_neg hn5, if_neg hn6, if_neg hn7, if_neg hn8, if_neg hn9, if_neg hn10, if_pos hn11]
    have hval : slotValue r.style = JsVal.boolTrue := by
      rw [slotValue, if_neg hp1, if_neg hp2, if_neg hp3, if_neg hp4]
    rw [applyRange, if_neg hp1, if_neg hp2, if_neg hp3, if_neg hp4, if_neg hn1, if_neg hn2, if_neg hn3, if_neg hn4, if_neg hn5, if_neg hn6, if_neg hn7, if_neg hn8, if_neg hn9, if_neg hn10, if_pos hn11, hslot, hval]
    cases sl <;> simp [readSlot, setWhere]
  have hslot : slotOfStyle r.style = none := by
    rw [slotOfStyle, if_neg hp1, if_neg hp2, if_neg hp3, if_neg hp4, if_neg hn1, if_neg hn2, if_neg hn3, if_neg hn4, if_neg hn5, if_neg hn6, if_neg hn7, if_neg hn8, if_neg hn9, if_neg hn10, if_neg hn11]
  rw [applyRange, if_neg hp1, if_neg hp2, if_neg hp3, if_neg hp4, if_neg hn1, if_neg hn2, if_neg hn3, if_neg hn4, if_neg hn5, if_neg hn6, if_neg hn7, if_neg hn8, if_neg hn9, if_neg hn10, if_neg hn11, hslot]
  simp


theorem foldl_applyRange_preserve (sl : StyleSlot) (j : Nat) :
    ∀ (post : List InlineStyleRange) (st : InlineStyles),
      (∀ r2 ∈ post, ¬(slotOfStyle r2.style = some sl
          ∧ r2.offset ≤ j ∧ j < r2.offset + r2.length)) →
      readSlot (post.foldl applyRange st) sl j = readSlot st sl j := by
  intro post
  induction post with
  | nil => intro st _; rfl
  | cons r2 rest ih =>
      intro st hlater
      rw [List.foldl_cons, ih (applyRange st r2)
        (fun r3 hr3 => hlater r3 (List.mem_cons_of_mem r2 hr3))]
      rw [readSlot_applyRange, if_neg (hlater r2 (List.mem_cons_self r2 rest))]

/-- C9: when several same-kind style ranges cover an offset, the style
vector records the value of the last covering range in input order (later
ranges overwrite earlier ones slot by slot); the builder is a total
function, so no error is raised for the overlap. -/
theorem C9_last_range_wins (block : Block) (pre post : List InlineStyleRange)
    (r : InlineStyleRange) (sl : StyleSlot) (j : Nat)
    (hranges : block.inlineStyleRanges = pre ++ r :: post)
    (hslot : slotOfStyle r.style = some sl)
    (hcov : r.offset ≤ j ∧ j < r.offset + r.length)
    (hlater : ∀ r2 ∈ post, ¬(slotOfStyle r2.style = some sl
        ∧ r2.offset ≤ j ∧ j < r2.offset + r2.length)) :
    readSlot (getStyleArrayForBlock block) sl j = some (slotValue r.style) := by
  unfold getStyleArrayForBlock
  rw [hranges, List.foldl_append, List.foldl_cons]
  rw [foldl_applyRange_preserve sl j post _ hlater]
  rw [readSlot_applyRange, if_pos ⟨hslot, hcov⟩]

theorem C9_last_range_wins_witness :
    slotOfStyle "color-blue" = some StyleSlot.COLOR
      ∧ (2 ≤ 3 ∧ 3 < 2 + 7)
      ∧ readSlot (getStyleArrayForBlock
          ⟨"unstyled", "abcdefg", [⟨"color-red", 0, 5⟩, ⟨"color-blue", 2, 7⟩], [], none⟩)
          StyleSlot.COLOR 3 = some (slotValue "color-blue") :=
  ⟨by rfl, ⟨by decide, by decide⟩,
    C9_last_range_wins
      ⟨"unstyled", "abcdefg", [⟨"color-red", 0, 5⟩, ⟨"color-blue", 2, 7⟩], [], none⟩
      [⟨"color-red", 0, 5⟩] [] ⟨"color-blue", 2, 7⟩ StyleSlot.COLOR 3 rfl (by rfl)
      ⟨by decide, by decide⟩ (by simp)⟩

theorem applyRange_length (st : InlineStyles) (r : InlineStyleRange) :
    (applyRange st r).length = st.length := by
  unfold applyRange
  simp only [apply_ite InlineStyles.length, ite_self]

theorem foldl_applyRange_length (rs : List InlineStyleRange) :
    ∀ (st : InlineStyles), (rs.foldl applyRange st).length = st.length := by
  induction rs with
  | nil => intro st; rfl
  | cons r rest ih =>
      intro st
      rw [List.foldl_cons, ih, applyRange_length]

theorem getStyleArrayForBlock_length (block : Block) :
    (getStyleArrayForBlock block).length = block.text.length := by
  unfold getStyleArrayForBlock
  rw [foldl_applyRange_length]
  rfl

/-- The run starts exactly as claim C6 words them: a run starts at `i` when
`i` is the range start or some selected key's value at `i` differs from its
value at `i - 1`. -/
def claimedRunStarts (st : InlineStyles) (styles : List String)
    (start endP : Nat) : List Nat :=
  (List.range' start (endP - start)).filter
    (fun i => decide (i = start)
      || !(styles.all (fun k => decide (styleGet st k i = styleGet st k (i - 1)))))

theorem ssLoop_starts (st : InlineStyles) (styles : List String)
    (text : String) :
    ∀ (fuel : Nat) (cur : StyleSection) (i : Nat),
      (ssLoop st styles text cur i fuel).map (fun sec => sec.start)
        = cur.start :: (List.range' i fuel).filter
            (fun n => !sameStyleAsPrevious st styles n) := by
  intro fuel
  induction fuel with
  | zero => intro cur i; rfl
  | succ fuel ih =>
      intro cur i
      rw [List.range'_succ, List.filter_cons]
      cases hsame : sameStyleAsPrevious st styles i with
      | true =>
          simp only [ssLoop, hsame, if_true, Bool.not_true, Bool.false_eq_true,
            if_false]
          rw [ih]
      | false =>
          simp only [ssLoop, hsame, Bool.false_eq_true, if_false, Bool.not_false,
            if_true, List.map_cons]
          rw [ih]
          simp [newStyleSection]

theorem styleSections_starts (block : Block) (styles : List String)
    (start endP : Nat) (htext : 0 < block.text.length)
    (hend : endP ≤ block.text.length) :
    (getStyleSections block styles start endP).map (fun sec => sec.start)
      = claimedRunStarts (getStyleArrayForBlock block) styles start endP := by
  by_cases hse : start < endP
  · have hfuel : endP - start = (endP - (start + 1)) + 1 := by omega
    rw [claimedRunStarts, hfuel, List.range'_succ, List.filter_cons, if_pos (by simp)]
    simp only [getStyleSections, if_pos (show block.text.length > 0 from htext),
      if_pos hse]
    rw [ssLoop_starts]
    simp only [newStyleSection]
    congr 1
    refine List.filter_congr ?_
    intro n hn
    rw [List.mem_range'_1] at hn
    have hguard : 0 < n ∧ n < (getStyleArrayForBlock block).length := by
      rw [getStyleArrayForBlock_length]
      omega
    rw [sameStyleAsPrevious, if_pos hguard]
    have : ¬(n = start) := by omega
    simp [this]
  · have h0 : endP - start = 0 := by omega
    simp only [getStyleSections, if_pos (show block.text.length > 0 from htext),
      if_neg hse, claimedRunStarts, h0, List.range'_zero, List.filter_nil,
      List.map_nil]

/-- C6: a block whose text has length at least 7, with BOLD over `[0, 5)`
and ITALIC over `[2, 7)` and nothing else, splits `[0, 7)` into exactly
the three toggle runs `[0, 2)`, `[2, 5)`, `[5, 7)` carrying `{BOLD}`,
`{BOLD, ITALIC}`, `{ITALIC}`; and in general (for in-bounds ranges) a run
starts at `i` exactly when `i` is the range start or some selected key's
value at `i` differs from its value at `i - 1`. -/
theorem C6_overlapping_toggle_runs :
    (∀ s : String, 7 ≤ s.length →
        (getStyleSections ⟨"unstyled", s, [⟨"BOLD", 0, 5⟩, ⟨"ITALIC", 2, 7⟩], [], none⟩
            toggleStyleNames 0 7).map (fun sec => (sec.start, sec.endPos, sec.styles))
          = [(0, 2, { Styles.empty with BOLD := some .boolTrue }),
             (2, 5, { Styles.empty with ITALIC := some .boolTrue, BOLD := some .boolTrue }),
             (5, 7, { Styles.empty with ITALIC := some .boolTrue })])
      ∧ (∀ (block : Block) (styles : List String) (start endP : Nat),
          0 < block.text.length → endP ≤ block.text.length →
          (getStyleSections block styles start endP).map (fun sec => sec.start)
            = claimedRunStarts (getStyleArrayForBlock block) styles start endP) := by
  constructor
  · intro s h7
    have hst : getStyleArrayForBlock
        ⟨"unstyled", s, [⟨"BOLD", 0, 5⟩, ⟨"ITALIC", 2, 7⟩], [], none⟩
        = { COLOR := fun _ => none, BGCOLOR := fun _ => none, FONTSIZE := fun _ => none,
            FONTFAMILY := fun _ => none, SUBSCRIPT := fun _ => none,
            SUPERSCRIPT := fun _ => none, CODE := fun _ => none,
            STRIKETHROUGH := fun _ => none, UNDERLINE := fun _ => none,
            ITALIC := setWhere (fun _ => none) 2 7 .boolTrue,
            BOLD := setWhere (fun _ => none) 0 5 .boolTrue,
            length := s.length } := by rfl
    have hguard : ∀ i, 0 < i → i < 7 →
        sameStyleAsPrevious (getStyleArrayForBlock
            ⟨"unstyled", s, [⟨"BOLD", 0, 5⟩, ⟨"ITALIC", 2, 7⟩], [], none⟩)
            toggleStyleNames i
          = toggleStyleNames.all (fun k =>
              decide (styleGet (getStyleArrayForBlock
                  ⟨"unstyled", s, [⟨"BOLD", 0, 5⟩, ⟨"ITALIC", 2, 7⟩], [], none⟩) k i
                = styleGet (getStyleArrayForBlock
                  ⟨"unstyled", s, [⟨"BOLD", 0, 5⟩, ⟨"ITALIC", 2, 7⟩], [], none⟩) k (i - 1))) := by
      intro i h1 h2
      rw [sameStyleAsPrevious, if_pos]
      refine ⟨h1, ?_⟩
      rw [getStyleArrayForBlock_length]
      show i < s.length
      omega
    have same1 := (hguard 1 (by omega) (by omega)).trans (by rw [hst])
    have same2 := (hguard 2 (by omega) (by omega)).trans (by rw [hst])
    have same3 := (hguard 3 (by omega) (by omega)).trans (by rw [hst])
    have same4 := (hguard 4 (by omega) (by omega)).trans (by rw [hst])
    have same5 := (hguard 5 (by omega) (by omega)).trans (by rw [hst])
    have same6 := (hguard 6 (by omega) (by omega)).trans (by rw [hst])
    have htlen : (0:Nat) < (Block.mk "unstyled" s [⟨"BOLD", 0, 5⟩, ⟨"ITALIC", 2, 7⟩] [] none).text.length := by
      show 0 < s.length
      omega
    simp only [getStyleSections, if_pos (show (Block.mk "unstyled" s
        [⟨"BOLD", 0, 5⟩, ⟨"ITALIC", 2, 7⟩] [] none).text.length > 0 from htlen),
      if_pos (show (0:Nat) < 7 by omega)]
    norm_num
    simp only [ssLoop, same1, same2, same3, same4, same5, same6, if_true, if_false,
      Bool.false_eq_true, newStyleSection, List.map_cons, List.map_nil]
    rw [hst]
    rfl
  · intro block styles start endP h1 h2
    exact styleSections_starts block styles start endP h1 h2

theorem C6_overlapping_toggle_runs_witness :
    7 ≤ ("abcdefg" : String).length
      ∧ (getStyleSections ⟨"unstyled", "abcdefg", [⟨"BOLD", 0, 5⟩, ⟨"ITALIC", 2, 7⟩], [], none⟩
            toggleStyleNames 0 7).map (fun sec => (sec.start, sec.endPos, sec.styles))
          = [(0, 2, { Styles.empty with BOLD := some .boolTrue }),
             (2, 5, { Styles.empty with ITALIC := some .boolTrue, BOLD := some .boolTrue }),
             (5, 7, { Styles.empty with ITALIC := some .boolTrue })]
      ∧ (getStyleSections ⟨"unstyled", "xyz", [⟨"BOLD", 1, 1⟩], [], none⟩
            toggleStyleNames 0 3).map (fun sec => sec.start)
          = claimedRunStarts (getStyleArrayForBlock ⟨"unstyled", "xyz", [⟨"BOLD", 1, 1⟩], [], none⟩)
              toggleStyleNames 0 3 :=
  ⟨by decide, C6_overlapping_toggle_runs.1 "abcdefg" (by decide),
    C6_overlapping_toggle_runs.2 ⟨"unstyled", "xyz", [⟨"BOLD", 1, 1⟩], [], none⟩
      toggleStyleNames 0 3 (by decide) (by decide)⟩

/-- `k` copies of the non-breaking-space marker, flattened. -/
def nbspFlat : Nat → List Char
  | 0 => []
  | n + 1 => nbspFlat n ++ "&nbsp;".data

theorem nbspFlat_length : ∀ n, (nbspFlat n).length = 6 * n := by
  intro n
  induction n with
  | zero => rfl
  | succ n ih =>
      simp only [nbspFlat, List.length_append, ih,
        show ("&nbsp;".data).length = 6 from rfl]
      omega

theorem nbspFlat_no_space : ∀ n, ' ' ∉ nbspFlat n := by
  intro n
  induction n with
  | zero => simp [nbspFlat]
  | succ n ih =>
      simp only [nbspFlat, List.mem_append]
      rintro (h | h)
      · exact ih h
      · revert h; decide

theorem replaceFirstSpace_append (a : List Char) :
    ∀ (b : List Char), ' ' ∉ a →
      replaceFirstSpace (a ++ b) = a ++ replaceFirstSpace b := by
  induction a with
  | nil => intro b _; rfl
  | cons c a ih =>
      intro b h
      have hc : ¬(c = ' ') := fun he => h (by simp [he])
      simp only [List.cons_append, replaceFirstSpace, if_neg hc]
      exact congrArg (List.cons c) (ih b (fun hm => h (by simp [hm])))

theorem trimLeadingGo_spec (rest : List Char) (hrest : rest.head? ≠ some ' ') :
    ∀ (kRem i : Nat),
      trimLeadingGo (nbspFlat i ++ (List.replicate kRem ' ' ++ rest)) i
          (List.replicate kRem ' ' ++ rest)
        = nbspFlat (i + kRem) ++ rest := by
  intro kRem
  induction kRem with
  | zero =>
      intro i
      simp only [List.replicate_zero, List.nil_append, Nat.add_zero]
      cases hr : rest with
      | nil => rfl
      | cons c rest2 =>
          have hc : ¬(c = ' ') := by
            rw [hr] at hrest
            simpa using hrest
          rw [trimLeadingGo]
          by_cases hlen : i < (nbspFlat i ++ c :: rest2).length
          · rw [if_pos hlen, if_neg hc]
          · rw [if_neg hlen]
  | succ k ih =>
      intro i
      rw [List.replicate_succ, List.cons_append, trimLeadingGo]
      have hlen : i < (nbspFlat i ++ ' ' :: (List.replicate k ' ' ++ rest)).length := by
        rw [List.length_append, nbspFlat_length]
        simp only [List.length_cons]
        omega
      rw [if_pos hlen, if_pos rfl]
      rw [replaceFirstSpace_append (nbspFlat i) _ (nbspFlat_no_space i)]
      have hfs : replaceFirstSpace (' ' :: (List.replicate k ' ' ++ rest))
          = "&nbsp;".data ++ (List.replicate k ' ' ++ rest) := by
        simp [replaceFirstSpace]
      rw [hfs]
      have hflat : nbspFlat i ++ ("&nbsp;".data ++ (List.replicate k ' ' ++ rest))
          = nbspFlat (i + 1) ++ (List.replicate k ' ' ++ rest) := by
        rw [nbspFlat]
        simp [List.append_assoc]
      rw [hflat, ih (i + 1)]
      have harith : i + 1 + k = i + (k + 1) := by omega
      rw [harith]

theorem trimLeadingZeros_spec (k : Nat) (rest : List Char)
    (hrest : rest.head? ≠ some ' ') :
    trimLeadingZeros ⟨List.replicate k ' ' ++ rest⟩ = ⟨nbspFlat k ++ rest⟩ := by
  rw [trimLeadingZeros]
  by_cases hempty : (⟨List.replicate k ' ' ++ rest⟩ : String) = ""
  · rw [if_pos hempty]
    have hdata : List.replicate k ' ' ++ rest = ([] : List Char) :=
      congrArg String.data hempty
    have hk : k = 0 := by
      cases k with
      | zero => rfl
      | succ n => rw [List.replicate_succ] at hdata; exact absurd hdata (by simp)
    subst hk
    simp only [List.replicate_zero, List.nil_append] at hdata ⊢
    rw [hdata]
    rfl
  · rw [if_neg hempty]
    show String.mk (trimLeadingGo (List.replicate k ' ' ++ rest) 0
        (List.replicate k ' ' ++ rest)) = _
    have h := trimLeadingGo_spec rest hrest k 0
    simp only [nbspFlat, List.nil_append, Nat.zero_add] at h
    rw [h]

theorem trimTrailingLoop_eq (replaced : List Char) (i : Nat) :
    trimTrailingLoop replaced i
      = if replaced.get? i = some ' '
        then (if i = 0
              then replaced.take i ++ "&nbsp;".data ++ replaced.drop (i + 1)
              else trimTrailingLoop
                (replaced.take i ++ "&nbsp;".data ++ replaced.drop (i + 1)) (i - 1))
        else replaced := by
  cases i with
  | zero => simp [trimTrailingLoop]
  | succ n => simp [trimTrailingLoop]

theorem trimTrailingLoop_spec :
    ∀ (k : Nat) (front tail : List Char),
      front.getLast? ≠ some ' ' → (k ≠ 0 ∨ front ≠ []) →
      trimTrailingLoop (front ++ (List.replicate k ' ' ++ tail))
          (front.length + k - 1)
        = front ++ (nbspFlat k ++ tail) := by
  intro k
  induction k with
  | zero =>
      intro front tail hlast hne
      have hfe : front ≠ [] := by
        rcases hne with h | h
        · exact absurd rfl h
        · exact h
      simp only [List.replicate_zero, List.nil_append, nbspFlat, Nat.add_zero]
      rw [trimTrailingLoop_eq]
      have hget : (front ++ tail).get? (front.length - 1) = front.getLast? := by
        rw [List.get?_append (by have := List.length_pos.mpr hfe; omega)]
        exact (List.getLast?_eq_get? front).symm
      rw [if_neg (by rw [hget]; exact hlast)]
  | succ k ih =>
      intro front tail hlast hne
      rw [trimTrailingLoop_eq]
      have hidx : front.length + (k + 1) - 1 = front.length + k := by omega
      rw [hidx]
      have hget : (front ++ (List.replicate (k + 1) ' ' ++ tail)).get?
          (front.length + k) = some ' ' := by
        rw [List.get?_append_right (by omega)]
        have hsub : front.length + k - front.length = k := by omega
        rw [hsub, List.get?_append (by simp)]
        simp [List.get?_eq_getElem?, List.getElem?_replicate]
      rw [if_pos hget]
      have htake : (front ++ (List.replicate (k + 1) ' ' ++ tail)).take
          (front.length + k) = front ++ List.replicate k ' ' := by
        rw [List.take_append k, List.take_append_eq_append_take,
          List.take_replicate]
        have h1 : min k (k + 1) = k := by omega
        have h2 : k - (List.replicate (k + 1) ' ').length = 0 := by simp
        rw [h1, h2, List.take_zero, List.append_nil]
      have hdrop : (front ++ (List.replicate (k + 1) ' ' ++ tail)).drop
          (front.length + k + 1) = tail := by
        have h3 : front.length + k + 1 = front.length + (k + 1) := by omega
        rw [h3, List.drop_append (k + 1)]
        have h5 := List.drop_left (List.replicate (k + 1) ' ') tail
        simp only [List.length_replicate] at h5
        exact h5
      rw [htake, hdrop]
      by_cases hz : front.length + k = 0
      · rw [if_pos hz]
        have hf0 : front = [] := by
          cases front with
          | nil => rfl
          | cons c f2 => simp at hz
        have hk0 : k = 0 := by omega
        subst hf0
        subst hk0
        simp [nbspFlat]
      · rw [if_neg hz]
        have hih := ih front ("&nbsp;".data ++ tail) hlast
          (by
            by_cases hk : k = 0
            · right
              intro hfe
              subst hfe
              subst hk
              simp at hz
            · left; exact hk)
        have hshape : (front ++ List.replicate k ' ') ++ "&nbsp;".data ++ tail
            = front ++ (List.replicate k ' ' ++ ("&nbsp;".data ++ tail)) := by
          simp [List.append_assoc]
        rw [hshape, hih]
        have hflat : nbspFlat k ++ ("&nbsp;".data ++ tail) = nbspFlat (k + 1) ++ tail := by
          rw [nbspFlat]
          simp [List.append_assoc]
        rw [hflat]

theorem trimTrailingZeros_spec (k : Nat) (front : List Char)
    (hlast : front.getLast? ≠ some ' ') :
    trimTrailingZeros ⟨front ++ List.replicate k ' '⟩ = ⟨front ++ nbspFlat k⟩ := by
  rw [trimTrailingZeros]
  by_cases hempty : (⟨front ++ List.replicate k ' '⟩ : String) = ""
  · rw [if_pos hempty]
    have hdata : front ++ List.replicate k ' ' = ([] : List Char) :=
      congrArg String.data hempty
    rcases List.append_eq_nil.mp hdata with ⟨hf, hr⟩
    have hk : k = 0 := by
      cases k with
      | zero => rfl
      | succ n => rw [List.replicate_succ] at hr; exact absurd hr (by simp)
    subst hk
    subst hf
    rfl
  · rw [if_neg hempty]
    have hne : k ≠ 0 ∨ front ≠ [] := by
      by_cases hk : k = 0
      · right
        intro hf
        exact hempty (by subst hk; subst hf; rfl)
      · left; exact hk
    have h := trimTrailingLoop_spec k front [] hlast hne
    simp only [List.append_nil] at h
    have hlen : (⟨front ++ List.replicate k ' '⟩ : String).length - 1
        = front.length + k - 1 := by
      show (front ++ List.replicate k ' ').length - 1 = front.length + k - 1
      simp
    show String.mk (trimTrailingLoop (front ++ List.replicate k ' ')
        ((⟨front ++ List.replicate k ' '⟩ : String).length - 1)) = _
    rw [hlen, h]

theorem trimLeading_no_leading_space (t : String)
    (h : t.data.head? ≠ some ' ') : trimLeadingZeros t = t := by
  have hs := trimLeadingZeros_spec 0 t.data h
  simpa [nbspFlat] using hs

theorem trimTrailing_no_trailing_space (t : String)
    (h : t.data.getLast? ≠ some ' ') : trimTrailingZeros t = t := by
  have hs := trimTrailingZeros_spec 0 t.data h
  simpa [nbspFlat] using hs

/-- C7: leading (resp. trailing) whitespace trimming replaces each
contiguous space character at that end, one-for-one, with the `&nbsp;`
marker, stopping at the first non-space character; it is applied to the
first and last entity sections only: the block `"  mid  "` with no ranges
renders as `&nbsp;&nbsp;mid&nbsp;&nbsp;`, while the interior space of a
three-section block is left untouched. -/
theorem C7_whitespace_trimming :
    (∀ (k : Nat) (rest : List Char), rest.head? ≠ some ' ' →
        trimLeadingZeros ⟨List.replicate k ' ' ++ rest⟩ = ⟨nbspFlat k ++ rest⟩)
      ∧ (∀ (k : Nat) (front : List Char), front.getLast? ≠ some ' ' →
          trimTrailingZeros ⟨front ++ List.replicate k ' '⟩ = ⟨front ++ nbspFlat k⟩)
      ∧ getBlockContentMarkdown ⟨"unstyled", "  mid  ", [], [], none⟩ []
          = .ok (some "&nbsp;&nbsp;mid&nbsp;&nbsp;")
      ∧ getBlockContentMarkdown ⟨"unstyled", "x  y", [], [⟨0, 1, 0⟩, ⟨3, 1, 1⟩], none⟩
          [(0, ⟨"X", ⟨none, none⟩⟩), (1, ⟨"X", ⟨none, none⟩⟩)]
          = .ok (some "x y") :=
  ⟨trimLeadingZeros_spec, trimTrailingZeros_spec, rfl, rfl⟩

theorem C7_whitespace_trimming_witness :
    (("mid  ".data).head? ≠ some ' ')
      ∧ trimLeadingZeros ⟨List.replicate 2 ' ' ++ "mid  ".data⟩
          = ⟨nbspFlat 2 ++ "mid  ".data⟩
      ∧ trimTrailingZeros ⟨"  mid".data ++ List.replicate 2 ' '⟩
          = ⟨"  mid".data ++ nbspFlat 2⟩ :=
  ⟨by decide, C7_whitespace_trimming.1 2 "mid  ".data (by decide),
    C7_whitespace_trimming.2.1 2 "  mid".data (by decide)⟩

theorem dropWhile_space_head (l : List Char) :
    (l.dropWhile (fun c => c == ' ')).head? ≠ some ' ' := by
  induction l with
  | nil => simp
  | cons c t ih =>
      by_cases hc : (c == ' ') = true
      · simpa [List.dropWhile, hc] using ih
      · simp only [List.dropWhile, hc]
        simp only [List.head?_cons, ne_eq, Option.some.injEq]
        intro he
        subst he
        simp at hc

theorem takeWhile_space_replicate (l : List Char) :
    l.takeWhile (fun c => c == ' ')
      = List.replicate (l.takeWhile (fun c => c == ' ')).length ' ' := by
  refine List.eq_replicate_iff.mpr ⟨rfl, ?_⟩
  intro b hb
  have := List.mem_takeWhile_imp hb
  simpa using this

theorem nbspFlat_append_head :
    ∀ k, 0 < k → ∀ (rest : List Char), (nbspFlat k ++ rest).head? = some '&' := by
  intro k
  induction k with
  | zero => intro h; omega
  | succ k ih =>
      intro _ rest
      by_cases hk : 0 < k
      · rw [nbspFlat, List.append_assoc]
        exact ih hk _
      · have hk0 : k = 0 := by omega
        subst hk0
        rfl

theorem nbspFlat_append_getLast (front : List Char) :
    ∀ k, 0 < k → (front ++ nbspFlat k).getLast? = some ';' := by
  intro k
  induction k with
  | zero => intro h; omega
  | succ k _ =>
      intro _
      rw [nbspFlat, ← List.append_assoc, List.getLast?_append]
      simp [show ("&nbsp;".data).getLast? = some ';' from rfl]

/-- C10: both whitespace-trimming operations are idempotent, because the
substituted marker neither begins nor ends with a space character. -/
theorem C10_trims_idempotent (s : String) :
    trimLeadingZeros (trimLeadingZeros s) = trimLeadingZeros s
      ∧ trimTrailingZeros (trimTrailingZeros s) = trimTrailingZeros s := by
  constructor
  · have hdecomp : s.data = List.replicate
        (s.data.takeWhile (fun c => c == ' ')).length ' '
        ++ s.data.dropWhile (fun c => c == ' ') := by
      conv_lhs => rw [← List.takeWhile_append_dropWhile (p := fun c => c == ' ')
        (l := s.data)]
      rw [← takeWhile_space_replicate]
    have hs : s = ⟨List.replicate (s.data.takeWhile (fun c => c == ' ')).length ' '
        ++ s.data.dropWhile (fun c => c == ' ')⟩ := congrArg String.mk hdecomp
    rw [hs, trimLeadingZeros_spec _ _ (dropWhile_space_head s.data)]
    apply trimLeading_no_leading_space
    cases hk : (s.data.takeWhile (fun c => c == ' ')).length with
    | zero => simpa [nbspFlat] using dropWhile_space_head s.data
    | succ n =>
        rw [show (⟨nbspFlat (n + 1) ++ s.data.dropWhile (fun c => c == ' ')⟩
            : String).data = nbspFlat (n + 1) ++ s.data.dropWhile (fun c => c == ' ')
          from rfl]
        rw [nbspFlat_append_head (n + 1) (by omega)]
        simp
  · have hdecomp : s.data
        = (s.data.reverse.dropWhile (fun c => c == ' ')).reverse
          ++ List.replicate (s.data.reverse.takeWhile (fun c => c == ' ')).length ' ' := by
      conv_lhs => rw [← List.reverse_reverse s.data]
      conv_lhs => rw [← List.takeWhile_append_dropWhile (p := fun c => c == ' ')
        (l := s.data.reverse)]
      rw [List.reverse_append]
      congr 1
      rw [takeWhile_space_replicate s.data.reverse, List.reverse_replicate]
      simp
    have hlast : ((s.data.reverse.dropWhile (fun c => c == ' ')).reverse).getLast?
        ≠ some ' ' := by
      rw [List.getLast?_reverse]
      exact dropWhile_space_head s.data.reverse
    have hs : s = ⟨(s.data.reverse.dropWhile (fun c => c == ' ')).reverse
        ++ List.replicate (s.data.reverse.takeWhile (fun c => c == ' ')).length ' '⟩ :=
      congrArg String.mk hdecomp
    rw [hs, trimTrailingZeros_spec _ _ hlast]
    apply trimTrailing_no_trailing_space
    cases hk : (s.data.reverse.takeWhile (fun c => c == ' ')).length with
    | zero => simpa [nbspFlat] using hlast
    | succ n =>
        rw [show (⟨(s.data.reverse.dropWhile (fun c => c == ' ')).reverse
            ++ nbspFlat (n + 1)⟩ : String).data
            = (s.data.reverse.dropWhile (fun c => c == ' ')).reverse
              ++ nbspFlat (n + 1) from rfl]
        rw [nbspFlat_append_getLast _ (n + 1) (by omega)]
        simp

theorem head?_append_left {α : Type} (l1 l2 : List α) (h : l1 ≠ []) :
    (l1 ++ l2).head? = l1.head? := by
  cases l1 with
  | nil => exact absurd rfl h
  | cons a t => rfl

theorem string_join_cons (x : String) (xs : List String) :
    String.join (x :: xs) = x ++ String.join xs := by
  have hoist : ∀ (l : List String) (a : String),
      List.foldl (fun r s => r ++ s) a l = a ++ List.foldl (fun r s => r ++ s) "" l := by
    intro l
    induction l with
    | nil => intro a; simp [String.append_empty]
    | cons y ys ih =>
        intro a
        simp only [List.foldl_cons]
        rw [ih (a ++ y), ih ("" ++ y), String.empty_append, String.append_assoc]
  show List.foldl (fun r s => r ++ s) ("" ++ x) xs = _
  rw [String.empty_append, hoist xs x]
  rfl

theorem string_join_data : ∀ (l : List String),
    (String.join l).data = (l.map String.data).join := by
  intro l
  induction l with
  | nil => rfl
  | cons x xs ih =>
      rw [string_join_cons, List.map_cons, String.data_append, ih]
      simp

theorem escJsChar_some (c : Char) : escJsChar (some c) = claimedEscape c := by
  by_cases h1 : c = '\n'
  · subst h1; rfl
  by_cases h2 : c = '&'
  · subst h2; rfl
  by_cases h3 : c = '<'
  · subst h3; rfl
  by_cases h4 : c = '>'
  · subst h4; rfl
  rw [claimedEscape, if_neg h1, if_neg h2, if_neg h3, if_neg h4]
  unfold escJsChar
  split <;> simp_all

theorem claimedEscape_ne_empty (c : Char) : (claimedEscape c).data ≠ [] := by
  rw [claimedEscape]
  split_ifs <;> simp [String.singleton]

theorem claimedEscape_head (c : Char) (h : ¬(c = ' ')) :
    (claimedEscape c).data.head? ≠ some ' ' := by
  rw [claimedEscape]
  split_ifs <;> simp_all [String.singleton]

theorem claimedEscape_getLast (c : Char) (h : ¬(c = ' ')) :
    (claimedEscape c).data.getLast? ≠ some ' ' := by
  rw [claimedEscape]
  split_ifs <;> simp_all [String.singleton]

theorem range'_map_get? {α : Type} : ∀ (l pre : List α),
    (List.range' pre.length l.length).map (fun i => (pre ++ l).get? i)
      = l.map some := by
  intro l
  induction l with
  | nil => intro pre; rfl
  | cons a l ih =>
      intro pre
      rw [List.length_cons, List.range'_succ, List.map_cons]
      congr 1
      · rw [List.get?_append_right (le_refl _)]
        simp
      · have h := ih (pre ++ [a])
        rw [List.length_append, List.append_assoc, List.singleton_append] at h
        simpa using h

theorem charAtJs_range' (s : String) :
    (List.range' 0 s.length).map (charAtJs s) = s.data.map some := by
  have h := range'_map_get? s.data []
  simp only [List.length_nil, List.nil_append] at h
  exact h

theorem getSectionText_escape (s : String) :
    getSectionText (s.data.map some) = claimedEscapedText s := by
  rw [getSectionText, claimedEscapedText]
  by_cases h : s.data = []
  · rw [h]
    simp [String.join]
  · rw [if_pos (by simp only [List.length_map]; exact List.length_pos.mpr h),
      List.map_map]
    congr 1
    refine List.map_congr_left ?_
    intro a _
    exact escJsChar_some a

theorem styleGet_empty (len : Nat) (k : String) :
    styleGet (emptyInlineStyles len) k = fun _ => none := by
  rw [styleGet]
  simp only [emptyInlineStyles, ite_self]

theorem sameStyle_empty (len : Nat) (keys : List String) (i : Nat)
    (h : 0 < i ∧ i < len) :
    sameStyleAsPrevious (emptyInlineStyles len) keys i = true := by
  rw [sameStyleAsPrevious,
    if_pos (show 0 < i ∧ i < (emptyInlineStyles len).length from h),
    List.all_eq_true]
  intro k _
  rw [styleGet_empty]
  simp

theorem ssLoop_all_same (st : InlineStyles) (keys : List String) (text : String) :
    ∀ (fuel : Nat) (cur : StyleSection) (i : Nat), cur.endPos = i →
      (∀ j, i ≤ j → j < i + fuel → sameStyleAsPrevious st keys j = true) →
      ssLoop st keys text cur i fuel
        = [StyleSection.mk cur.styles
            (cur.text ++ (List.range' i fuel).map (charAtJs text))
            cur.start (i + fuel)] := by
  intro fuel
  induction fuel with
  | zero =>
      intro cur i hend _
      simp only [ssLoop, List.range'_zero, List.map_nil, List.append_nil,
        Nat.add_zero]
      cases cur
      simp_all
  | succ fuel ih =>
      intro cur i hend hall
      have hsame : sameStyleAsPrevious st keys i = true :=
        hall i (le_refl i) (by omega)
      simp only [ssLoop, hsame, if_true]
      rw [ih _ (i + 1) rfl (fun j hj1 hj2 => hall j (by omega) (by omega))]
      dsimp only
      have ht : cur.text ++ [charAtJs text i]
            ++ (List.range' (i + 1) fuel).map (charAtJs text)
          = cur.text ++ (List.range' i (fuel + 1)).map (charAtJs text) := by
        rw [List.range'_succ, List.map_cons]
        simp
      have he : i + 1 + fuel = i + (fuel + 1) := by omega
      rw [ht, he]

theorem styleSections_empty_ranges (block : Block) (keys : List String)
    (hranges : block.inlineStyleRanges = []) (hlen : 0 < block.text.length) :
    getStyleSections block keys 0 block.text.length
      = [⟨getStylesAtOffset (emptyInlineStyles block.text.length) 0,
          (List.range' 0 block.text.length).map (charAtJs block.text), 0,
          block.text.length⟩] := by
  have hst : getStyleArrayForBlock block = emptyInlineStyles block.text.length := by
    rw [getStyleArrayForBlock, hranges]
    rfl
  simp only [getStyleSections, if_pos (show block.text.length > 0 from hlen),
    if_pos hlen, hst]
  rw [ssLoop_all_same (emptyInlineStyles block.text.length) keys block.text
    (block.text.length - (0 + 1))
    (newStyleSection (emptyInlineStyles block.text.length) block.text 0)
    (0 + 1) rfl
    (fun j h1 h2 => sameStyle_empty _ _ _ ⟨by omega, by omega⟩)]
  dsimp only [newStyleSection]
  have he : 0 + 1 + (block.text.length - (0 + 1)) = block.text.length := by omega
  have ht : [charAtJs block.text 0]
        ++ (List.range' (0 + 1) (block.text.length - (0 + 1))).map (charAtJs block.text)
      = (List.range' 0 block.text.length).map (charAtJs block.text) := by
    conv_rhs => rw [show block.text.length = (block.text.length - 1) + 1 from by omega]
    rw [List.range'_succ, List.map_cons]
    simp
  rw [he, ht]

theorem join_cons_eq {α : Type} (x : List α) (X : List (List α)) :
    (x :: X).join = x ++ X.join := by
  simp

theorem claimedEscapedText_head (s : String)
    (h : s.data.head? ≠ some ' ') :
    (claimedEscapedText s).data.head? ≠ some ' ' := by
  rw [claimedEscapedText, string_join_data, List.map_map]
  cases hs : s.data with
  | nil => simp
  | cons c rest =>
      rw [List.map_cons, join_cons_eq]
      simp only [Function.comp_apply]
      rw [head?_append_left _ _ (claimedEscape_ne_empty c)]
      have hc : ¬(c = ' ') := by
        rw [hs] at h
        simpa using h
      exact claimedEscape_head c hc

theorem join_escape_getLast : ∀ (l : List Char), l.getLast? ≠ some ' ' →
    ((l.map (fun c => (claimedEscape c).data)).join).getLast? ≠ some ' ' := by
  intro l
  induction l using List.reverseRecOn with
  | nil => intro _; simp
  | append_singleton t a _ =>
      intro h
      have ha : ¬(a = ' ') := by
        rw [List.getLast?_concat] at h
        simpa using h
      rw [List.map_append, List.map_singleton]
      have hja : ((t.map (fun c => (claimedEscape c).data)) ++ [(claimedEscape a).data]).join
          = (t.map (fun c => (claimedEscape c).data)).join ++ (claimedEscape a).data := by
        simp
      rw [hja, List.getLast?_append]
      obtain ⟨d, hd⟩ : ∃ d, (claimedEscape a).data.getLast? = some d := by
        cases hx : (claimedEscape a).data.getLast? with
        | none => exact absurd (List.getLast?_eq_none_iff.mp hx) (claimedEscape_ne_empty a)
        | some d => exact ⟨d, rfl⟩
      rw [hd]
      have hlast2 := claimedEscape_getLast a ha
      rw [hd] at hlast2
      show (some d : Option Char) ≠ some ' '
      exact hlast2

theorem claimedEscapedText_getLast (s : String)
    (h : s.data.getLast? ≠ some ' ') :
    (claimedEscapedText s).data.getLast? ≠ some ' ' := by
  rw [claimedEscapedText, string_join_data, List.map_map]
  exact join_escape_getLast s.data h

theorem entitySectionMarkdown_plain (block : Block) (em : EntityMap)
    (hranges : block.inlineStyleRanges = []) (hlen : 0 < block.text.length) :
    getEntitySectionMarkdown block em ⟨0, block.text.length, none⟩
      = .ok (getSectionText
          ((List.range' 0 block.text.length).map (charAtJs block.text))) := by
  have h1 := styleSections_empty_ranges block toggleStyleNames hranges hlen
  have h2 := styleSections_empty_ranges block propertyStyleNames hranges hlen
  simp only [getEntitySectionMarkdown, h1, h2, List.foldl_cons, List.foldl_nil]
  rfl

/-- C8 (amended): for a block with no style ranges, no entity ranges and no
block-level data, whose text neither begins nor ends with a space, the
rendered block output is exactly the block-type symbol, the text escaped
character by character, and the line terminator.  (Texts with edge spaces
additionally go through the whitespace trimmer, see the counterexample.) -/
theorem C8_plain_block_amended (t s : String) (em : EntityMap)
    (hhead : s.data.head? ≠ some ' ') (hlast : s.data.getLast? ≠ some ' ') :
    getBlockMarkdown ⟨t, s, [], [], none⟩ em
      = .ok (joinVal (getBlockTagSymbol ⟨t, s, [], [], none⟩)
          ++ claimedEscapedText s ++ "\n") := by
  by_cases hempty : s.data = []
  · have hs : s = "" := by
      have he : s = ⟨s.data⟩ := rfl
      rw [he, hempty]
    subst hs
    rfl
  · have hlen : 0 < s.length := List.length_pos.mpr hempty
    have hesc : claimedEscapedText s
        = getSectionText ((List.range' 0 s.length).map (charAtJs s)) := by
      rw [charAtJs_range', getSectionText_escape]
    have hesm := entitySectionMarkdown_plain ⟨t, s, [], [], none⟩ em rfl hlen
    dsimp only at hesm
    rw [← hesc] at hesm
    have htrimL : trimLeadingZeros (claimedEscapedText s) = claimedEscapedText s :=
      trimLeading_no_leading_space _ (claimedEscapedText_head s hhead)
    have htrimT : trimTrailingZeros (claimedEscapedText s) = claimedEscapedText s :=
      trimTrailing_no_trailing_space _ (claimedEscapedText_getLast s hlast)
    have hsecs : getEntitySections ([] : List EntityRange) s.length
        = [⟨0, s.length, none⟩] := by
      rw [getEntitySections]
      dsimp only [List.foldl_nil]
      rw [if_pos hlen]
      rfl
    have hjoin : String.join [claimedEscapedText s] = claimedEscapedText s := by
      rw [string_join_cons]
      show claimedEscapedText s ++ "" = claimedEscapedText s
      rw [String.append_empty]
    have hatomic : ¬(isAtomicBlock ⟨t, s, [], [], none⟩ = true) := by
      rw [show isAtomicBlock ⟨t, s, [], [], none⟩ = false from rfl]
      simp
    have hcontent : getBlockContentMarkdown ⟨t, s, [], [], none⟩ em
        = .ok (some (claimedEscapedText s)) := by
      simp only [getBlockContentMarkdown, hatomic, if_false]
      rw [hsecs]
      simp only [renderEntitySections, hesm, bind, Except.bind, List.length_cons,
        List.length_nil]
      simp only [if_true, Bool.false_eq_true, if_false]
      simp only [htrimL, htrimT]
      simp only [Except.map, hjoin]
    simp only [getBlockMarkdown, hcontent, bind, Except.bind]
    rfl

theorem C8_plain_block_amended_witness :
    ("a<b".data.head? ≠ some ' ')
      ∧ ("a<b".data.getLast? ≠ some ' ')
      ∧ getBlockMarkdown ⟨"header-one", "a<b", [], [], none⟩ []
          = .ok (joinVal (getBlockTagSymbol ⟨"header-one", "a<b", [], [], none⟩)
              ++ claimedEscapedText "a<b" ++ "\n") :=
  ⟨by decide, by decide,
    C8_plain_block_amended "header-one" "a<b" [] (by decide) (by decide)⟩

end DraftJsToMarkdown
